import Mathlib

/-!
# Streaming chat reply pipeline of `ChatPage.jsx`

A shallow embedding of the stream loop `processStream` inside `handleSend`
(`src/temp/aitools/frontend/src/pages/ChatPage.jsx`, lines 585-838) and of the
helpers it relies on: the save with retry `saveAIMessage`, the request helper
`utils/request.js`, the token checks of `LoginPage.jsx` and `HomePage.jsx`, and
the checks of `UploadComponent.jsx` before an upload.

Conventions.
* A JavaScript string is a `Str`, a list of characters.  Chunks are the texts
  returned by `decoder.decode(value, { stream: true })`, so splitting a stream
  is splitting its text.
* `JSON.parse` is a built-in of the host language and is taken as a parameter
  `parse : Str → Option JsVal` (`none` when it throws).
* React state setters are applied immediately; `currentChat` is represented by
  its one entry whose id is `aiMessageId`, the only entry the loop rewrites.
-/

namespace ChatPage

/-- A JavaScript string, as the list of its characters. -/
abbrev Str := List Char

/-! ## String built-ins used by the loop -/

/-- White space and line terminators removed by `String.prototype.trim`. -/
def isJsSpace (c : Char) : Bool :=
  let n := c.toNat
  n == 0x09 || n == 0x0A || n == 0x0B || n == 0x0C || n == 0x0D || n == 0x20 ||
  n == 0xA0 || n == 0x1680 || (0x2000 ≤ n && n ≤ 0x200A) || n == 0x2028 ||
  n == 0x2029 || n == 0x202F || n == 0x205F || n == 0x3000 || n == 0xFEFF

/-- Line terminators, which `.` of a regular expression does not match. -/
def isLineTerminator (c : Char) : Bool :=
  let n := c.toNat
  n == 0x0A || n == 0x0D || n == 0x2028 || n == 0x2029

/-- The built-in `s.trim()`. -/
def trim (s : Str) : Str :=
  ((s.dropWhile isJsSpace).reverse.dropWhile isJsSpace).reverse

/-- The built-in `s.startsWith(p)`. -/
def startsWith (s p : Str) : Bool := p.isPrefixOf s

/-- The built-in `s.endsWith(p)`. -/
def endsWith (s p : Str) : Bool := p.isSuffixOf s

/-- The built-in `s.includes(p)`. -/
def includes : Str → Str → Bool
  | [], p => p.isEmpty
  | c :: cs, p => p.isPrefixOf (c :: cs) || includes cs p

/-- Puts a character in front of the first piece of a split. -/
def consHead (c : Char) : List Str → List Str
  | [] => [[c]]
  | p :: ps => (c :: p) :: ps

/-- The call `buffer.split('\n\n')`: the pieces between the occurrences of a
double newline, found from left to right without overlap. -/
def splitNN : Str → List Str
  | [] => [[]]
  | [c] => [[c]]
  | c :: d :: rest =>
    if c = '\n' ∧ d = '\n' then [] :: splitNN rest
    else consHead c (splitNN (d :: rest))

/-- The expression `line.replace(/^data: /, '')`. -/
def stripData (line : Str) : Str :=
  if startsWith line "data: ".toList then line.drop 6 else line

/-! ## JSON values and the built-ins applied to them -/

/-- A JavaScript value as `JSON.parse` can produce it (and `undefined`, the
value of a missing property).  A number is represented by the text that
`String(n)` renders for it. -/
inductive JsVal where
  | undefined : JsVal
  | null : JsVal
  | bool (b : Bool) : JsVal
  | num (shown : Str) : JsVal
  | str (s : Str) : JsVal
  | arr (items : List JsVal) : JsVal
  | obj (fields : List (Str × JsVal)) : JsVal

/-- Property read `v.key` for a key that no built-in prototype defines: the
own property of an object, `undefined` otherwise. -/
def JsVal.get : JsVal → Str → JsVal
  | .obj fields, key =>
    match fields.find? (fun p => p.1 == key) with
    | some p => p.2
    | none => .undefined
  | _, _ => .undefined

/-- Truthiness of a value, as tested by `&&` and `if`. -/
def JsVal.truthy : JsVal → Bool
  | .undefined => false
  | .null => false
  | .bool b => b
  | .num shown => shown != "0".toList && shown != "NaN".toList
  | .str s => !s.isEmpty
  | .arr _ => true
  | .obj _ => true

/-- The test `typeof v === 'object'`. -/
def JsVal.isObjectType : JsVal → Bool
  | .null => true
  | .arr _ => true
  | .obj _ => true
  | _ => false

/-- Whether the object has an own property named `toString`.  A value that
`JSON.parse` returns is never callable, so such a property hides
`Object.prototype.toString` behind something that cannot be called. -/
def hidesToString (fields : List (Str × JsVal)) : Bool :=
  fields.any (fun p => p.1 == "toString".toList)

mutual
/-- The conversion `String(v)`; `none` when it throws a `TypeError`.  For an
object the conversion calls its `toString`, then its `valueOf`: with the
inherited `toString` the text is `[object Object]`; with an own property
`toString`, which is not callable, `valueOf` gives back the object (or is not
callable either) and the conversion throws. -/
def JsVal.toStr : JsVal → Option Str
  | .undefined => some "undefined".toList
  | .null => some "null".toList
  | .bool true => some "true".toList
  | .bool false => some "false".toList
  | .num shown => some shown
  | .str s => some s
  | .arr items => JsVal.joinStr items
  | .obj fields => if hidesToString fields then none else some "[object Object]".toList
/-- The text of `Array.prototype.join` with a comma, which `String` applies to
an array: `null` and `undefined` elements render as the empty string, every
other element is converted as `String` does, and a conversion that throws makes
the whole call throw. -/
def JsVal.joinStr : List JsVal → Option Str
  | [] => some []
  | [.undefined] => some []
  | [.null] => some []
  | [v] => JsVal.toStr v
  | .undefined :: w :: rest => (JsVal.joinStr (w :: rest)).map (fun r => ',' :: r)
  | .null :: w :: rest => (JsVal.joinStr (w :: rest)).map (fun r => ',' :: r)
  | v :: w :: rest =>
    match JsVal.toStr v with
    | none => none
    | some t => (JsVal.joinStr (w :: rest)).map (fun r => t ++ ',' :: r)
end

/-- The strict comparison `v.type === name`. -/
def JsVal.typeIs (v : JsVal) (name : Str) : Bool :=
  match v.get "type".toList with
  | .str s => s == name
  | _ => false

/-- The six `type` values that line 738-744 recognise as provider metadata,
in the order in which they are tested. -/
def metadataTypes : List Str :=
  ["stream_start".toList, "message_start".toList, "content_block_start".toList,
   "message_delta".toList, "content_block_delta".toList, "ping".toList]

/-! ## The fallback pattern -/

/-- The lazy group `(.*?)` followed by the literal `stop`: the shortest run of
characters other than line terminators after which `stop` follows. -/
def lazyUntil (stop : Str) : Str → Option Str
  | [] => if stop.isPrefixOf [] then some [] else none
  | c :: cs =>
    if stop.isPrefixOf (c :: cs) then some []
    else if isLineTerminator c then none
    else (lazyUntil stop cs).map (fun g => c :: g)

/-- The first group of `errorMessage.match(/使用(.*?)代替/)`, at the leftmost
position where the pattern matches; `none` when there is no match. -/
def matchFallback : Str → Option Str
  | [] => none
  | c :: cs =>
    if "使用".toList.isPrefixOf (c :: cs) then
      match lazyUntil "代替".toList ((c :: cs).drop 2) with
      | some g => some g
      | none => matchFallback cs
    else matchFallback cs

/-- Lines 699-713: the name of the fallback model when the error message is a
model-fallback notice, `none` when the message is a fatal error. -/
def fallbackOf (errorMessage : Str) : Option Str :=
  if includes errorMessage "Claude模型不可用".toList ||
      includes errorMessage "using gpt-".toList then
    match matchFallback errorMessage with
    | some g => if g.isEmpty then none else some g
    | none => none
  else none

/-! ## The state touched by the loop -/

/-- The assistant entry of `currentChat` created at lines 573-580. -/
structure Message where
  content : Str
  isStreaming : Bool
  deriving DecidableEq, Repr, Inhabited

/-- A toast shown through `message.error` or `message.warning`. -/
inductive Notice where
  | error (text : Str) : Notice
  | warning (text : Str) : Notice
  deriving DecidableEq, Repr

/-- The variables of `handleSend` and the component state that `processStream`
reads and writes. -/
structure ChatState where
  /-- The local `buffer`. -/
  buffer : Str
  /-- The local `fullResponse`. -/
  fullResponse : Str
  /-- The entry of `currentChat` whose id is `aiMessageId`. -/
  aiMessage : Message
  /-- The component state `loading`. -/
  loading : Bool
  /-- Contents of the calls `saveAIMessage(chatId, fullResponse)` scheduled so far. -/
  saves : List Str
  /-- The component state `currentChatModel`. -/
  currentChatModel : Str
  /-- The component state `selectedModel`. -/
  selectedModel : Str
  /-- Toasts shown so far, oldest first. -/
  notices : List Notice
  deriving DecidableEq, Repr, Inhabited

/-- How the body of the `for` loop leaves: on to the next line, through
`return`, or through an error thrown at line 767, which rejects the promise of
`processStream`. -/
inductive Flow where
  | next : Flow
  | ret : Flow
  | thrown : Flow
  deriving DecidableEq, Repr

/-! ## The body of the `for` loop (lines 658-784) -/

/-- Lines 732-733: the line is "obviously JSON": it starts with `{` and ends
with `}`, or starts and ends with a double quote. -/
def looksJson (dataLine : Str) : Bool :=
  (startsWith dataLine "\x7b".toList && endsWith dataLine "\x7d".toList) ||
    (startsWith dataLine "\"".toList && endsWith dataLine "\"".toList)

/-- Lines 728-763: the value of `contentChunk` after the `try` block, or
`none` when the block leaves through `continue` (metadata without text).
When `JSON.parse` throws, `contentChunk` is still `dataLine`; when it returns
`null`, the read of `.type` throws after the assignment. -/
def contentOf (parse : Str → Option JsVal) (dataLine : Str) : Option JsVal :=
  if looksJson dataLine then
    match parse dataLine with
    | none => some (.str dataLine)
    | some .null => some .null
    | some v =>
      if v.isObjectType && metadataTypes.any v.typeIs then
        if (v.get "content_block".toList).truthy &&
            ((v.get "content_block".toList).get "text".toList).truthy then
          some ((v.get "content_block".toList).get "text".toList)
        else if (v.get "delta".toList).truthy &&
            ((v.get "delta".toList).get "text".toList).truthy then
          some ((v.get "delta".toList).get "text".toList)
        else none
      else some v
  else some (.str dataLine)

/-- Lines 765-768: `contentChunk` made a string; `none` when `String` throws.
The lines stand after the `try` block, so nothing catches the error there. -/
def chunkText : JsVal → Option Str
  | .str s => some s
  | v => v.toStr

/-- Lines 664-691: the branch taken for the line `[DONE]`. -/
def onDone (st : ChatState) : ChatState :=
  { st with
    aiMessage := { content := st.fullResponse, isStreaming := false }
    saves := if (trim st.fullResponse).isEmpty then st.saves
             else st.saves ++ [st.fullResponse]
    loading := false }

/-- Lines 715-725: the branch taken for a fatal `ERROR:` line. -/
def onFatal (st : ChatState) (errorMessage : Str) : ChatState :=
  { st with
    aiMessage :=
      { content := "**错误: ".toList ++
          (if errorMessage.isEmpty then "获取AI响应失败".toList else errorMessage) ++
          "**".toList
        isStreaming := false }
    notices := st.notices ++ [Notice.error ("AI响应错误: ".toList ++
      (if errorMessage.isEmpty then "未知错误".toList else errorMessage))]
    loading := false }

/-- Lines 703-711: the branch taken for a model-fallback notice. -/
def onFallback (st : ChatState) (fallbackModel : Str) : ChatState :=
  { st with
    currentChatModel := fallbackModel
    selectedModel := fallbackModel
    notices := st.notices ++ [Notice.warning ("Claude模型不可用，已自动切换到".toList ++
      fallbackModel)] }

/-- Lines 770-780: `fullResponse += contentChunk` and the update of the message. -/
def onContent (st : ChatState) (contentChunk : Str) : ChatState :=
  { st with
    fullResponse := st.fullResponse ++ contentChunk
    aiMessage := { st.aiMessage with content := st.fullResponse ++ contentChunk } }

/-- One run of the body of `for (const line of lines)`.  When `String` throws
at line 767 the line has changed nothing yet. -/
def processLine (parse : Str → Option JsVal) (st : ChatState) (line : Str) :
    ChatState × Flow :=
  if (trim line).isEmpty then (st, .next)
  else
    let dataLine := trim (stripData line)
    if dataLine = "[DONE]".toList then (onDone st, .ret)
    else if startsWith dataLine "ERROR:".toList then
      let errorMessage := trim (dataLine.drop 6)
      match fallbackOf errorMessage with
      | some fallbackModel => (onFallback st fallbackModel, .next)
      | none => (onFatal st errorMessage, .ret)
    else
      match contentOf parse dataLine with
      | none => (st, .next)
      | some v =>
        match chunkText v with
        | some contentChunk => (onContent st contentChunk, .next)
        | none => (st, .thrown)

/-- The loop `for (const line of lines)`, left early by `return` or by an
error. -/
def processLines (parse : Str → Option JsVal) : ChatState → List Str → ChatState × Flow
  | st, [] => (st, .next)
  | st, line :: rest =>
    match processLine parse st line with
    | (st1, .ret) => (st1, .ret)
    | (st1, .thrown) => (st1, .thrown)
    | (st1, .next) => processLines parse st1 rest

/-- The lines on which the loop body runs, each with the state it leaves. -/
def traceLines (parse : Str → Option JsVal) : ChatState → List Str → List (Str × ChatState)
  | _, [] => []
  | st, line :: rest =>
    match processLine parse st line with
    | (st1, .ret) => [(line, st1)]
    | (st1, .thrown) => [(line, st1)]
    | (st1, .next) => (line, st1) :: traceLines parse st1 rest

/-! ## The `while` loop (lines 640-786) -/

/-- What one `await reader.read()` gives: a chunk (already decoded to text),
the end of the stream, or a rejection. -/
inductive ReadResult where
  | value (chunk : Str) : ReadResult
  | done : ReadResult
  | fail : ReadResult
  deriving DecidableEq, Repr

/-- Where `processStream` stands once the given reads are consumed. -/
inductive Outcome where
  /-- Suspended in `await reader.read()`. -/
  | pending : Outcome
  /-- Left through `return` (a `[DONE]` line or a fatal `ERROR:` line). -/
  | returned : Outcome
  /-- Left through `break` (the reader reported `done`). -/
  | ended : Outcome
  /-- Rejected (the read threw, or the loop body threw at line 767). -/
  | failed : Outcome
  deriving DecidableEq, Repr

/-- Lines 650-656: the chunk is appended to the buffer, the buffer is split,
the last piece is kept.  Returns the state and the lines to process. -/
def takeLines (st : ChatState) (chunk : Str) : ChatState × List Str :=
  let lines := splitNN (st.buffer ++ chunk)
  ({ st with buffer := lines.getLastD [] }, lines.dropLast)

/-- Lines 650-784: one iteration of the `while` loop on a chunk. -/
def ingest (parse : Str → Option JsVal) (st : ChatState) (chunk : Str) : ChatState × Flow :=
  processLines parse (takeLines st chunk).1 (takeLines st chunk).2

/-- The function `processStream`, run on the results of the successive reads. -/
def processStream (parse : Str → Option JsVal) :
    ChatState → List ReadResult → ChatState × Outcome
  | st, [] => (st, .pending)
  | st, .done :: _ => ({ st with loading := false }, .ended)
  | st, .fail :: _ => (st, .failed)
  | st, .value chunk :: rest =>
    match ingest parse st chunk with
    | (st1, .ret) => (st1, .returned)
    | (st1, .thrown) => (st1, .failed)
    | (st1, .next) => processStream parse st1 rest

/-- The lines on which the loop body runs over the whole stream, each with
the state it leaves, in order. -/
def traceStream (parse : Str → Option JsVal) :
    ChatState → List ReadResult → List (Str × ChatState)
  | _, [] => []
  | _, .done :: _ => []
  | _, .fail :: _ => []
  | st, .value chunk :: rest =>
    traceLines parse (takeLines st chunk).1 (takeLines st chunk).2 ++
      match ingest parse st chunk with
      | (_, .ret) => []
      | (_, .thrown) => []
      | (st1, .next) => traceStream parse st1 rest

/-- Lines 789-803: the handler attached by `processStream().catch`. -/
def onStreamError (st : ChatState) : ChatState :=
  { st with
    aiMessage := { content := "**错误: 处理响应流时出错**".toList, isStreaming := false }
    notices := st.notices ++ [Notice.error "处理响应流时出错".toList]
    loading := false }

/-- The call `processStream().catch(...)` of lines 789-803. -/
def runStream (parse : Str → Option JsVal) (st : ChatState) (reads : List ReadResult) :
    ChatState × Outcome :=
  match processStream parse st reads with
  | (st1, .failed) => (onStreamError st1, .failed)
  | r => r

/-- The state when `processStream` starts: `buffer` and `fullResponse` are
empty (lines 636-637), the assistant message is empty and streaming (lines
573-583), `loading` is set. -/
def initState (model : Str) : ChatState :=
  { buffer := []
    fullResponse := []
    aiMessage := { content := [], isStreaming := true }
    loading := true
    saves := []
    currentChatModel := model
    selectedModel := model
    notices := [] }

/-- A stand-in for `JSON.parse` that throws on every input, for closed examples
whose lines are not JSON-shaped. -/
def parseNothing : Str → Option JsVal := fun _ => none

/-- The state with the local `buffer` left out: what is observable of it once
the loop is over. -/
def ChatState.core (st : ChatState) : ChatState := { st with buffer := [] }

/-! ## Words of the specification about the buffer -/

/-- The double newline that delimits frames. -/
def sepNN : Str := ['\n', '\n']

/-- Three newlines in a row, where two double newlines overlap. -/
def tripleNN : Str := ['\n', '\n', '\n']

/-- The part of a text after its last double newline, the whole text when it
has none: `s.slice(s.lastIndexOf('\n\n') + 2)`. -/
def afterLastNN : Str → Str
  | [] => []
  | c :: cs =>
    if includes cs sepNN then afterLastNN cs
    else if sepNN.isPrefixOf (c :: cs) then cs.drop 1
    else c :: cs

/-! ## Frames of the data model -/

/-- A logical frame (`StreamFrame` of the data model): content with its text,
the end marker, an error with its message and the fallback model when the
message is a fallback notice, or metadata without text.  The last case is not
of the data model: a line whose content `String` cannot convert, on which the
loop body throws. -/
inductive StreamFrame where
  | content (text : Str) : StreamFrame
  | done : StreamFrame
  | error (message : Str) (fallbackModel : Option Str) : StreamFrame
  | metadata : StreamFrame
  | broken : StreamFrame
  deriving DecidableEq, Repr

/-- The frame that the loop body reads in a line, following the order of its
tests (lines 659, 664, 693, 728-768); `none` for a blank line, which is skipped. -/
def frameOf (parse : Str → Option JsVal) (line : Str) : Option StreamFrame :=
  if (trim line).isEmpty then none
  else if trim (stripData line) = "[DONE]".toList then some .done
  else if startsWith (trim (stripData line)) "ERROR:".toList then
    some (.error (trim ((trim (stripData line)).drop 6))
      (fallbackOf (trim ((trim (stripData line)).drop 6))))
  else
    match contentOf parse (trim (stripData line)) with
    | none => some .metadata
    | some v =>
      match chunkText v with
      | some contentChunk => some (.content contentChunk)
      | none => some .broken

/-- A frame after which no frame is accepted: the end marker or a fatal error. -/
def StreamFrame.isTerminal : StreamFrame → Bool
  | .done => true
  | .error _ none => true
  | _ => false

/-- A frame at which the loop stops: a terminal frame, left through `return`,
or a frame on which the loop body throws. -/
def StreamFrame.stopsLoop : StreamFrame → Bool
  | .done => true
  | .error _ none => true
  | .broken => true
  | _ => false

/-- The content payload of a frame, empty for the frames that carry none. -/
def StreamFrame.payload : StreamFrame → Str
  | .content text => text
  | _ => []

/-- The state machine of the reply: what a frame does to the state. -/
def applyFrame (st : ChatState) : StreamFrame → ChatState × Flow
  | .content text => (onContent st text, .next)
  | .done => (onDone st, .ret)
  | .error _ (some fallbackModel) => (onFallback st fallbackModel, .next)
  | .error message none => (onFatal st message, .ret)
  | .metadata => (st, .next)
  | .broken => (st, .thrown)

/-- The complete frames of a text: its pieces that a double newline closes. -/
def completeFrames (stream : Str) : List Str := (splitNN stream).dropLast

/-- The accumulated text as the data model words it: the concatenation, in
arrival order, of the content payloads of the complete frames that come before
the first terminal frame. -/
def expectedText (parse : Str → Option JsVal) (stream : Str) : Str :=
  ((((completeFrames stream).filterMap (frameOf parse)).takeWhile
    (fun f => !f.isTerminal)).map StreamFrame.payload).flatten

/-- The accumulated text as the loop builds it: the concatenation, in arrival
order, of the content payloads of the complete frames that come before the
first frame at which the loop stops. -/
def textUntilStop (parse : Str → Option JsVal) (stream : Str) : Str :=
  ((((completeFrames stream).filterMap (frameOf parse)).takeWhile
    (fun f => !f.stopsLoop)).map StreamFrame.payload).flatten

/-! ## Words of the specification about plain-text payloads -/

/-- A payload that is plain text: not the terminal marker, not starting with
`ERROR:`, not JSON-shaped. -/
def isPlainText (p : Str) : Bool :=
  p != "[DONE]".toList && !startsWith p "ERROR:".toList && !looksJson p

/-- The chunk that carries one payload as one frame: `data: p\n\n`. -/
def frameChunk (p : Str) : Str := "data: ".toList ++ p ++ sepNN

/-! ## The events of one send (lines 585-822) -/

/-- Where `handleSend` stands after the assistant message is added: waiting
for `fetch` to settle, reading the stream, or done with the stream. -/
inductive Phase where
  | fetching : Phase
  | reading : Phase
  | over : Phase
  deriving DecidableEq, Repr

/-- The state of one send: the state of the loop, whether the 60-second timer
`loadingTimeoutId` is still pending, and the phase. -/
structure SendState where
  chat : ChatState
  timerArmed : Bool
  phase : Phase
  deriving DecidableEq, Repr

/-- The events of one send: the timer fires, `fetch` resolves with a response
(`ok` or not), `fetch` rejects, a read of the stream settles. -/
inductive Event where
  | timerExpiry : Event
  | response (ok : Bool) : Event
  | fetchError : Event
  | read (r : ReadResult) : Event
  deriving DecidableEq, Repr

/-- Lines 586-594: the callback of the 60-second timer. -/
def onTimeout (st : ChatState) : ChatState :=
  { st with
    loading := false
    notices := st.notices ++ [Notice.error "响应超时，请重试".toList]
    aiMessage := { content := "**错误: 响应超时，请重试**".toList, isStreaming := false } }

/-- One event of a send.  The timer callback runs only while the timer is
pending.  When `fetch` settles the timer is cleared (lines 628, 810); a
response that is not `ok` and a rejection go to the handler of lines 805-822,
which makes the same updates as `onStreamError`.  A read is taken only while
the loop is running. -/
def step (parse : Str → Option JsVal) (s : SendState) : Event → SendState
  | .timerExpiry =>
    if s.timerArmed then { s with chat := onTimeout s.chat, timerArmed := false } else s
  | .response ok =>
    match s.phase with
    | .fetching =>
      if ok then { s with timerArmed := false, phase := .reading }
      else { chat := onStreamError s.chat, timerArmed := false, phase := .over }
    | _ => s
  | .fetchError =>
    match s.phase with
    | .fetching => { chat := onStreamError s.chat, timerArmed := false, phase := .over }
    | _ => s
  | .read r =>
    match s.phase with
    | .reading =>
      match runStream parse s.chat [r] with
      | (c, .pending) => { s with chat := c }
      | (c, _) => { s with chat := c, phase := .over }
    | _ => s

/-- The state right after lines 573-594: the message is added, the timer is
started, the request is about to be sent. -/
def sendStart (model : Str) : SendState :=
  { chat := initState model, timerArmed := true, phase := .fetching }

/-- The state after a sequence of events. -/
def runEvents (parse : Str → Option JsVal) (s : SendState) (events : List Event) : SendState :=
  events.foldl (step parse) s

/-- A stand-in for `JSON.parse` that knows the listed texts and throws on every
other one, for closed examples. -/
def parseTable (table : List (Str × JsVal)) : Str → Option JsVal :=
  fun s => (table.find? (fun p => p.1 == s)).map (fun p => p.2)

/-- The notice that the server sends when it falls back to the model `n`:
`Claude模型不可用，使用n代替`. -/
def fallbackNotice (n : Str) : Str :=
  "Claude模型不可用，使用".toList ++ n ++ "代替".toList

/-! ## Saving the reply (lines 841-899) -/

/-- What a call of `saveAIMessage` has done: the number of requests sent, the
delays waited between them (in milliseconds, in order), whether the line
`AI message saved successfully` was reached, the toasts shown, and whether the
call is leaving through a `throw`. -/
structure SaveLog where
  attempts : Nat
  delays : List Nat
  saved : Bool
  notices : List Notice
  threw : Bool
  deriving DecidableEq, Repr

/-- Nothing done yet. -/
def SaveLog.empty : SaveLog :=
  { attempts := 0, delays := [], saved := false, notices := [], threw := false }

/-- The constant `maxRetries` of line 855. -/
def maxRetries : Nat := 3

/-- The function `saveWithRetry` (lines 857-892).  `ok k` tells whether the
request sent after `k` earlier requests succeeds (the response is `ok`) or fails
(`fetch` rejects or the response is not `ok`).  On a failure with retries left,
`retryCount` is incremented first and the delay is `500 * 2 ^ retryCount` with
the incremented value. -/
def saveWithRetry (ok : Nat → Bool) (retryCount : Nat) (log : SaveLog) : SaveLog :=
  if ok log.attempts then
    { log with attempts := log.attempts + 1, saved := true }
  else if retryCount < maxRetries - 1 then
    saveWithRetry ok (retryCount + 1)
      { log with
        attempts := log.attempts + 1
        delays := log.delays ++ [500 * 2 ^ (retryCount + 1)] }
  else
    { log with
      attempts := log.attempts + 1
      notices := log.notices ++ [Notice.error "保存AI回复失败，但不影响当前对话".toList]
      threw := true }
termination_by maxRetries - 1 - retryCount

/-- The function `saveAIMessage` (lines 841-899): nothing is sent when the chat
id or the content is empty; an error that `saveWithRetry` throws is caught, a
second toast is shown and the call returns. -/
def saveAIMessage (chatId content : Str) (ok : Nat → Bool) : SaveLog :=
  if chatId.isEmpty || content.isEmpty then SaveLog.empty
  else
    let r := saveWithRetry ok 0 SaveLog.empty
    if r.threw then
      { r with
        notices := r.notices ++ [Notice.error "无法保存AI回复，但不影响当前对话".toList]
        threw := false }
    else r

/-- Outcomes of the requests given as a list, in order; a request beyond the
end of the list fails. -/
def outcomesOf (l : List Bool) : Nat → Bool := fun k => l.getD k false

/-! ## The request helper (`utils/request.js`) and `fetchWithAuth` (`api.js`) -/

/-- A JavaScript error: its `name`, its `message`, and the `status` that the
helper attaches to some of its errors. -/
structure JsError where
  name : Str
  message : Str
  status : Option Nat
  deriving DecidableEq, Repr

/-- A response of `fetch`: the HTTP status, the status text, the text that
`response.text()` gives, and the error that `response.json()` throws when the
body is not JSON. -/
structure Response where
  status : Nat
  statusText : Str
  body : Str
  jsonError : Option JsError
  deriving DecidableEq, Repr

/-- The property `response.ok`: the status is in the range 200-299. -/
def Response.ok (r : Response) : Bool := 200 ≤ r.status && r.status ≤ 299

/-- What the code reads and writes of the browser: the entries `token` and
`username` of local storage and the current location. -/
structure Browser where
  token : Option Str
  username : Option Str
  location : Str
  deriving DecidableEq, Repr

/-- How the call of `fetch` settles: with a response, or with a rejection (a
network failure, or the abort that the timeout of lines 33-35 issues). -/
inductive FetchResult where
  | response (r : Response) : FetchResult
  | error (e : JsError) : FetchResult
  deriving DecidableEq, Repr

/-- How a call of `request` settles: resolved with the JSON of the body
(represented by the body text), or rejected with an error. -/
inductive RequestResult where
  | resolved (body : Str) : RequestResult
  | rejected (e : JsError) : RequestResult
  deriving DecidableEq, Repr

/-- An error made with `new Error(message)`. -/
def newError (message : Str) : JsError :=
  { name := "Error".toList, message := message, status := none }

/-- Lines 66-81: the `catch` block, through which every error thrown in the
`try` block passes. -/
def onCatch (error : JsError) : JsError :=
  if error.name = "AbortError".toList then
    { newError "请求超时，请重试".toList with status := some 408 }
  else if includes error.message "NetworkError".toList ||
      includes error.message "Failed to fetch".toList then
    { newError "网络错误，请检查连接".toList with status := some 0 }
  else error

/-- The function `request` (lines 1-82), given how `fetch` settles. -/
def request (url : Str) (b : Browser) (fetched : FetchResult) : Browser × RequestResult :=
  match fetched with
  | .error e => (b, .rejected (onCatch e))
  | .response r =>
    if r.status = 401 then
      if includes url "/api/login".toList then
        (b, .rejected (onCatch
          { newError "Invalid email or password".toList with status := some 401 }))
      else
        ({ b with token := none, location := "/login".toList },
          .rejected (onCatch (newError "请先登录".toList)))
    else if !r.ok then
      (b, .rejected (onCatch
        { newError (if r.body.isEmpty then r.statusText else r.body) with
          status := some r.status }))
    else
      match r.jsonError with
      | some e => (b, .rejected (onCatch e))
      | none => (b, .resolved r.body)

/-- The function `fetchWithAuth` of `api.js` (lines 1-26) on a response: on a
401 both entries are removed, the location is set and `null` is returned
(`none`); otherwise the response is returned. -/
def fetchWithAuth (b : Browser) (r : Response) : Browser × Option Response :=
  if r.status = 401 then
    ({ b with token := none, username := none, location := "/login".toList }, none)
  else (b, some r)

/-- Words of the specification: a request to the login endpoint is a request
whose URL is a base address followed by `/api/login`. -/
def isLoginEndpoint (url : Str) : Bool := endsWith url "/api/login".toList

/-! ## The token checks (`LoginPage.jsx`, `HomePage.jsx`) -/

/-- The call `token.split('.')`: the pieces between the occurrences of the
character. -/
def splitOn (sep : Char) : Str → List Str
  | [] => [[]]
  | c :: cs => if c = sep then [] :: splitOn sep cs else consHead c (splitOn sep cs)

/-- The two global replacements of line 19, on one character: every `-`
becomes `+` and every `_` becomes `/`. -/
def base64Char (c : Char) : Char :=
  if c = '-' then '+' else if c = '_' then '/' else c

/-- The `try` block of both checks up to the comparison: the value of `exp`,
or `none` when something throws.  `decode` stands for the built-ins `atob`,
`decodeURIComponent` and `JSON.parse` applied in turn (`none` when one of
them throws).  With no second segment `base64Url` is `undefined` and
`.replace` throws; destructuring `null` or `undefined` throws. -/
def readExp (decode : Str → Option JsVal) (token : Str) : Option JsVal :=
  match (splitOn '.' token)[1]? with
  | none => none
  | some base64Url =>
    match decode (base64Url.map base64Char) with
    | none => none
    | some .null => none
    | some .undefined => none
    | some payload => some (payload.get "exp".toList)

/-- The product `exp * 1000`; `toNumber` is the built-in conversion of a value
to a number, `none` standing for `NaN`.  Numbers are taken to be integers. -/
def expMillis (toNumber : JsVal → Option Int) (exp : JsVal) : Option Int :=
  (toNumber exp).map (fun n => n * 1000)

/-- The comparison `x > Date.now()`, false for `NaN`. -/
def isAfter (x : Option Int) (now : Int) : Bool :=
  match x with
  | some n => decide (n > now)
  | none => false

/-- The comparison `x <= Date.now()`, false for `NaN`. -/
def isAtOrBefore (x : Option Int) (now : Int) : Bool :=
  match x with
  | some n => decide (n ≤ now)
  | none => false

/-- Both entries removed from local storage. -/
def clearCredentials (b : Browser) : Browser := { b with token := none, username := none }

/-- The function `checkTokenExpiration` of `LoginPage.jsx` (lines 14-39).
`navigate` is represented by the location it sets. -/
def checkTokenExpiration (decode : Str → Option JsVal) (toNumber : JsVal → Option Int)
    (now : Int) (b : Browser) : Browser :=
  match b.token with
  | none => b
  | some token =>
    if token.isEmpty then b
    else
      match readExp decode token with
      | none => clearCredentials b
      | some exp =>
        if isAfter (expMillis toNumber exp) now then { b with location := "/chat".toList }
        else clearCredentials b

/-- The function `checkAuth` of `HomePage.jsx` (lines 25-59). -/
def checkAuth (decode : Str → Option JsVal) (toNumber : JsVal → Option Int)
    (now : Int) (b : Browser) : Browser :=
  match b.token with
  | none => { b with location := "/login".toList }
  | some token =>
    if token.isEmpty then { b with location := "/login".toList }
    else
      match readExp decode token with
      | none => { clearCredentials b with location := "/login".toList }
      | some exp =>
        if isAtOrBefore (expMillis toNumber exp) now then
          { clearCredentials b with location := "/login".toList }
        else if b.location = "/".toList then { b with location := "/chat".toList }
        else b

/-- The natural number that a run of decimal digits writes; `none` for the
empty text and for a text with any other character. -/
def digitsValue (s : Str) : Option Nat :=
  if s.all Char.isDigit && !s.isEmpty then
    some (s.foldl (fun acc c => acc * 10 + (c.toNat - 48)) 0)
  else none

/-- The integer that a decimal text writes, with `-` in front for a negative
one; a `+` in front is read only where `plus` allows it (a string may carry
one, the rendering of a number never does). -/
def signedValue (plus : Bool) : Str → Option Int
  | '-' :: ds => (digitsValue ds).map (fun n => - Int.ofNat n)
  | '+' :: ds => if plus then (digitsValue ds).map Int.ofNat else none
  | ds => (digitsValue ds).map Int.ofNat

/-- A stand-in for the conversion of a value to a number, for closed examples
on integers: `undefined` is `NaN`, `null` is 0, `true` is 1, `false` is 0, a
number rendered as a decimal integer is that integer, a string is trimmed and
is then 0 when empty and the integer it writes in decimal.  The other values
(fractions, exponents, other bases, arrays, objects) are beyond it and are
answered with `NaN`, which the language does not do for all of them. -/
def intNumber : JsVal → Option Int
  | .undefined => none
  | .null => some 0
  | .bool true => some 1
  | .bool false => some 0
  | .num shown => signedValue false shown
  | .str s => if (trim s).isEmpty then some 0 else signedValue true (trim s)
  | .arr _ => none
  | .obj _ => none

/-! ## The upload panel (`RAGComponents/UploadComponent.jsx`) -/

/-- What `handleUpload` reads of the selected `File`: its name, its MIME type
and its size in bytes. -/
structure UploadFile where
  name : Str
  type : Str
  size : Nat
  deriving DecidableEq, Repr

/-- The errors that `handleUpload` sets before any request: no file (line 64),
a file type that is not accepted (line 77), a file that is too large (line 84,
whose text also shows the size). -/
inductive UploadError where
  | noFile : UploadError
  | invalidType : UploadError
  | tooLarge (size : Nat) : UploadError
  deriving DecidableEq, Repr

/-- How `handleUpload` goes on after its checks: an error is set and it
returns, or the request `axios.post` is sent with the file. -/
inductive UploadStep where
  | errorSet (e : UploadError) : UploadStep
  | requestSent (file : UploadFile) : UploadStep
  deriving DecidableEq, Repr

/-- The constant `validTypes` of line 69. -/
def validTypes : List Str :=
  ["application/pdf".toList, "text/plain".toList,
   "application/vnd.openxmlformats-officedocument.wordprocessingml.document".toList,
   "text/markdown".toList]

/-- The constant `maxSize` of line 82. -/
def maxSize : Nat := 50 * 1024 * 1024

/-- The function `handleUpload` (lines 62-121) up to the request. -/
def handleUpload (selectedFile : Option UploadFile) : UploadStep :=
  match selectedFile with
  | none => .errorSet .noFile
  | some file =>
    if !validTypes.contains file.type &&
        !(endsWith file.name ".pdf".toList || endsWith file.name ".txt".toList ||
          endsWith file.name ".docx".toList || endsWith file.name ".md".toList) then
      .errorSet .invalidType
    else if file.size > maxSize then .errorSet (.tooLarge file.size)
    else .requestSent file

/-- Words of the claim: the file is of a supported format when its MIME type
is one of PDF, plain text, DOCX, markdown, or its name ends with `.pdf`,
`.txt`, `.docx` or `.md`. -/
def supportedFormat (file : UploadFile) : Prop :=
  file.type ∈ validTypes ∨ endsWith file.name ".pdf".toList = true ∨
    endsWith file.name ".txt".toList = true ∨ endsWith file.name ".docx".toList = true ∨
    endsWith file.name ".md".toList = true

/-! ## The guards of `handleSend` (lines 435-445) -/

/-- What the guards of `handleSend` read and what the claim about them
observes: the input text, `loading`, the current chat, the number of requests
issued so far, and the info toasts shown. -/
structure ComposeState where
  inputMessage : Str
  loading : Bool
  currentChat : List Message
  requests : Nat
  infos : List Str
  deriving DecidableEq, Repr

/-- The function `handleSend`, with the part after its two guards (lines
447-838) given as `rest`. -/
def handleSend (rest : ComposeState → ComposeState) (s : ComposeState) : ComposeState :=
  if (trim s.inputMessage).isEmpty then s
  else if s.loading then { s with infos := s.infos ++ ["消息正在发送中，请稍候".toList] }
  else rest s

/-! # Properties

## The split at double newlines -/

theorem consHead_ne_nil (c : Char) (xs : List Str) : consHead c xs ≠ [] := by
  cases xs <;> simp [consHead]

theorem splitNN_ne_nil (s : Str) : splitNN s ≠ [] := by
  induction s using splitNN.induct with
  | case1 => simp [splitNN]
  | case2 c => simp [splitNN]
  | case3 c d rest h ih => simp [splitNN, h]
  | case4 c d rest h ih => simp [splitNN, h, consHead_ne_nil]

theorem splitNN_no_sep (c d : Char) (rest : Str) (h : ¬(c = '\n' ∧ d = '\n')) :
    splitNN (c :: d :: rest) = consHead c (splitNN (d :: rest)) := by
  simp only [splitNN, h, if_false]

theorem splitNN_sep (rest : Str) : splitNN ('\n' :: '\n' :: rest) = [] :: splitNN rest := by
  simp [splitNN]

/-- A text that splits into one piece is that piece. -/
theorem splitNN_singleton (s p : Str) (h : splitNN s = [p]) : p = s := by
  induction s using splitNN.induct generalizing p with
  | case1 => simpa [splitNN] using h.symm
  | case2 c => simpa [splitNN] using h.symm
  | case3 c d rest hcd ih =>
    simp [splitNN, hcd] at h
    exact absurd h.2 (splitNN_ne_nil rest)
  | case4 c d rest hcd ih =>
    rw [splitNN_no_sep c d rest hcd] at h
    cases hX : splitNN (d :: rest) with
    | nil => exact absurd hX (splitNN_ne_nil _)
    | cons q qs =>
      rw [hX] at h
      simp [consHead] at h
      obtain ⟨h1, h2⟩ := h
      subst h2
      rw [ih q hX] at h1
      exact h1.symm

theorem getLastD_consHead (c : Char) (q : Str) (qs : List Str) (hq : qs ≠ []) :
    (consHead c (q :: qs)).getLastD [] = (q :: qs).getLastD [] := by
  cases qs with
  | nil => exact absurd rfl hq
  | cons r rs => simp [consHead]

theorem splitNN_append (s t : Str) :
    splitNN (s ++ t) = (splitNN s).dropLast ++ splitNN ((splitNN s).getLastD [] ++ t) := by
  induction s using splitNN.induct with
  | case1 => simp [splitNN]
  | case2 c => simp [splitNN]
  | case3 c d rest hcd ih =>
    obtain ⟨rfl, rfl⟩ := hcd
    have hne := splitNN_ne_nil rest
    cases hX : splitNN rest with
    | nil => exact absurd hX hne
    | cons q qs =>
      simp only [List.cons_append, splitNN_sep, ih, hX]
      simp [List.dropLast, List.getLastD]
  | case4 c d rest hcd ih =>
    have e1 : splitNN (c :: d :: rest ++ t) = consHead c (splitNN (d :: rest ++ t)) := by
      simp only [List.cons_append]
      exact splitNN_no_sep c d (rest ++ t) hcd
    rw [e1, ih, splitNN_no_sep c d rest hcd]
    cases hX : splitNN (d :: rest) with
    | nil => exact absurd hX (splitNN_ne_nil _)
    | cons q qs =>
      cases qs with
      | nil =>
        have hq := splitNN_singleton _ _ hX
        subst hq
        simp only [consHead, List.dropLast, List.getLastD, List.nil_append, List.getLast?,
          List.cons_append]
        simp
        exact (splitNN_no_sep c d (rest ++ t) hcd).symm
      | cons r rs =>
        simp [consHead, List.dropLast]

/-! ## The loop body does not touch the buffer -/

theorem processLine_setBuffer (parse : Str → Option JsVal) (st : ChatState) (b : Str) (line : Str) :
    processLine parse { st with buffer := b } line =
      ({ (processLine parse st line).1 with buffer := b }, (processLine parse st line).2) := by
  unfold processLine
  split
  · rfl
  · simp only
    split
    · rfl
    · split
      · split <;> rfl
      · split
        · rfl
        · split <;> rfl

theorem processLines_setBuffer (parse : Str → Option JsVal) (st : ChatState) (b : Str)
    (lines : List Str) :
    processLines parse { st with buffer := b } lines =
      ({ (processLines parse st lines).1 with buffer := b }, (processLines parse st lines).2) := by
  induction lines generalizing st with
  | nil => rfl
  | cons l ls ih =>
    simp only [processLines, processLine_setBuffer]
    cases h : processLine parse st l with
    | mk st1 f =>
      cases f with
      | next => simp [ih]
      | ret => simp
      | thrown => simp

theorem processLines_append (parse : Str → Option JsVal) (st : ChatState) (l1 l2 : List Str) :
    processLines parse st (l1 ++ l2) =
      match processLines parse st l1 with
      | (st1, .ret) => (st1, .ret)
      | (st1, .thrown) => (st1, .thrown)
      | (st1, .next) => processLines parse st1 l2 := by
  induction l1 generalizing st with
  | nil => simp [processLines]
  | cons l ls ih =>
    simp only [List.cons_append, processLines]
    cases h : processLine parse st l with
    | mk st1 f =>
      cases f with
      | next => simp [ih]
      | ret => simp
      | thrown => simp

theorem processLines_buffer (parse : Str → Option JsVal) (st : ChatState) (lines : List Str) :
    (processLines parse st lines).1.buffer = st.buffer := by
  have h := processLines_setBuffer parse st st.buffer lines
  have e : ({ st with buffer := st.buffer } : ChatState) = st := rfl
  rw [e] at h
  have := congrArg (fun r => r.1.buffer) h
  simpa using this

theorem traceLines_setBuffer (parse : Str → Option JsVal) (st : ChatState) (b : Str)
    (lines : List Str) :
    (traceLines parse { st with buffer := b } lines).map (fun x => (x.1, x.2.core)) =
      (traceLines parse st lines).map (fun x => (x.1, x.2.core)) := by
  induction lines generalizing st with
  | nil => rfl
  | cons l ls ih =>
    rw [traceLines, traceLines, processLine_setBuffer]
    cases h : processLine parse st l with
    | mk st1 f =>
      cases f with
      | next =>
        simp only [List.map_cons]
        rw [ih st1]
        rfl
      | ret => rfl
      | thrown => rfl

theorem traceLines_append (parse : Str → Option JsVal) (st : ChatState) (l1 l2 : List Str) :
    traceLines parse st (l1 ++ l2) =
      traceLines parse st l1 ++
        match processLines parse st l1 with
        | (_, .ret) => []
        | (_, .thrown) => []
        | (st1, .next) => traceLines parse st1 l2 := by
  induction l1 generalizing st with
  | nil => simp [processLines, traceLines]
  | cons l ls ih =>
    simp only [List.cons_append, processLines, traceLines]
    cases h : processLine parse st l with
    | mk st1 f =>
      cases f with
      | next => simp [ih]
      | ret => simp
      | thrown => simp

theorem takeLines_append (st : ChatState) (A B : Str) :
    takeLines st (A ++ B) =
      ({ st with buffer := (takeLines { st with buffer := (takeLines st A).1.buffer } B).1.buffer },
        (takeLines st A).2 ++ (takeLines { st with buffer := (takeLines st A).1.buffer } B).2) := by
  simp only [takeLines]
  rw [← List.append_assoc, splitNN_append (st.buffer ++ A) B]
  have hne := splitNN_ne_nil ((splitNN (st.buffer ++ A)).getLastD [] ++ B)
  rw [List.dropLast_append_of_ne_nil _ hne]
  congr 2
  generalize splitNN ((splitNN (st.buffer ++ A)).getLastD [] ++ B) = X at hne ⊢
  rw [List.getLastD_eq_getLast?, List.getLastD_eq_getLast? _ X,
    List.getLast?_append_of_ne_nil _ hne]

/-- Feeding `A ++ B` as one chunk is feeding `A` and then `B`, except that a
`return` or an error met among the lines of `A` leaves the buffer that the
whole chunk gave. -/
theorem ingest_append (parse : Str → Option JsVal) (st : ChatState) (A B : Str) :
    ingest parse st (A ++ B) =
      match ingest parse st A with
      | (sA, .ret) => ({ sA with buffer := (takeLines sA B).1.buffer }, .ret)
      | (sA, .thrown) => ({ sA with buffer := (takeLines sA B).1.buffer }, .thrown)
      | (sA, .next) => ingest parse sA B := by
  have hb : (ingest parse st A).1.buffer = (takeLines st A).1.buffer := by
    unfold ingest
    exact processLines_buffer parse _ _
  have e1 : ∀ b, ({ st with buffer := b } : ChatState) = { (takeLines st A).1 with buffer := b } :=
    fun _ => rfl
  unfold ingest at hb ⊢
  rw [takeLines_append]
  simp only
  rw [processLines_append, e1, processLines_setBuffer]
  cases h : processLines parse (takeLines st A).1 (takeLines st A).2 with
  | mk sA f =>
    rw [h] at hb
    simp only at hb
    have e2 : ∀ s : ChatState, takeLines s B = ({ s with buffer := (splitNN (s.buffer ++ B)).getLastD [] },
        (splitNN (s.buffer ++ B)).dropLast) := fun _ => rfl
    cases f with
    | ret =>
      simp only
      rw [e2, e2, hb]
    | thrown =>
      simp only
      rw [e2, e2, hb]
    | next =>
      simp only
      rw [e2, e2 sA, hb]

theorem traceChunk_append (parse : Str → Option JsVal) (st : ChatState) (A B : Str) :
    (traceLines parse (takeLines st (A ++ B)).1 (takeLines st (A ++ B)).2).map
        (fun x => (x.1, x.2.core)) =
      (traceLines parse (takeLines st A).1 (takeLines st A).2 ++
        match ingest parse st A with
        | (_, .ret) => []
        | (_, .thrown) => []
        | (sA, .next) => traceLines parse (takeLines sA B).1 (takeLines sA B).2).map
        (fun x => (x.1, x.2.core)) := by
  have hb : (ingest parse st A).1.buffer = (takeLines st A).1.buffer := by
    unfold ingest
    exact processLines_buffer parse _ _
  have e1 : ∀ b, ({ st with buffer := b } : ChatState) = { (takeLines st A).1 with buffer := b } :=
    fun _ => rfl
  unfold ingest at hb ⊢
  rw [takeLines_append]
  simp only
  rw [traceLines_append, e1, List.map_append, List.map_append, traceLines_setBuffer,
    processLines_setBuffer]
  congr 1
  cases h : processLines parse (takeLines st A).1 (takeLines st A).2 with
  | mk sA f =>
    rw [h] at hb
    simp only at hb
    have e2 : ∀ s : ChatState, takeLines s B = ({ s with buffer := (splitNN (s.buffer ++ B)).getLastD [] },
        (splitNN (s.buffer ++ B)).dropLast) := fun _ => rfl
    cases f with
    | ret => rfl
    | thrown => rfl
    | next =>
      simp only
      rw [e2, e2 sA, hb]


/-! ## The pieces of the split -/

theorem intercalate_cons_cons (sep p q : Str) (qs : List Str) :
    sep.intercalate (p :: q :: qs) = p ++ sep ++ sep.intercalate (q :: qs) := by
  simp [List.intercalate, List.intersperse]

theorem intercalate_consHead (sep : Str) (c : Char) (xs : List Str) (h : xs ≠ []) :
    sep.intercalate (consHead c xs) = c :: sep.intercalate xs := by
  match xs, h with
  | [p], _ => simp [consHead, List.intercalate]
  | p :: q :: qs, _ => simp [consHead, intercalate_cons_cons]

theorem intercalate_splitNN (s : Str) : sepNN.intercalate (splitNN s) = s := by
  induction s using splitNN.induct with
  | case1 => simp [splitNN, List.intercalate]
  | case2 c => simp [splitNN, List.intercalate]
  | case3 c d rest hcd ih =>
    obtain ⟨rfl, rfl⟩ := hcd
    rw [splitNN_sep]
    cases hX : splitNN rest with
    | nil => exact absurd hX (splitNN_ne_nil _)
    | cons q qs =>
      rw [intercalate_cons_cons, ← hX, ih]
      rfl
  | case4 c d rest hcd ih =>
    rw [splitNN_no_sep c d rest hcd, intercalate_consHead _ _ _ (splitNN_ne_nil _), ih]

theorem includes_eq_false_cons (c : Char) (cs p : Str) :
    includes (c :: cs) p = false ↔ p.isPrefixOf (c :: cs) = false ∧ includes cs p = false := by
  simp [includes]

theorem splitNN_head (s q : Str) (qs : List Str) (h : splitNN s = q :: qs) :
    q.head? = none ∨ q.head? = s.head? := by
  match s with
  | [] => simp [splitNN] at h; simp [← h.1]
  | [c] => simp [splitNN] at h; simp [← h.1]
  | c :: d :: rest =>
    by_cases hcd : c = '\n' ∧ d = '\n'
    · simp [splitNN, hcd] at h
      simp [← h.1]
    · rw [splitNN_no_sep c d rest hcd] at h
      cases hX : splitNN (d :: rest) with
      | nil => exact absurd hX (splitNN_ne_nil _)
      | cons r rs =>
        rw [hX] at h
        simp [consHead] at h
        simp [← h.1]

theorem isPrefixOf_sepNN (c : Char) (q : Str) :
    sepNN.isPrefixOf (c :: q) = true ↔ c = '\n' ∧ q.head? = some '\n' := by
  cases q with
  | nil => simp [sepNN, List.isPrefixOf]
  | cons e es =>
    simp [sepNN, List.isPrefixOf]
    constructor
    · rintro ⟨h1, h2⟩; exact ⟨h1.symm, h2.symm⟩
    · rintro ⟨h1, h2⟩; exact ⟨h1.symm, h2.symm⟩

theorem splitNN_pieces (s : Str) : ∀ p ∈ splitNN s, includes p sepNN = false := by
  induction s using splitNN.induct with
  | case1 => simp [splitNN, includes, sepNN]
  | case2 c => simp [splitNN, includes, sepNN, List.isPrefixOf]
  | case3 c d rest hcd ih =>
    obtain ⟨rfl, rfl⟩ := hcd
    rw [splitNN_sep]
    intro p hp
    rcases List.mem_cons.1 hp with rfl | hp
    · simp [includes, sepNN]
    · exact ih p hp
  | case4 c d rest hcd ih =>
    rw [splitNN_no_sep c d rest hcd]
    intro p hp
    cases hX : splitNN (d :: rest) with
    | nil => exact absurd hX (splitNN_ne_nil _)
    | cons q qs =>
      rw [hX] at hp ih
      simp only [consHead, List.mem_cons] at hp
      rcases hp with rfl | hp
      · have hq := ih q (List.mem_cons_self _ _)
        rw [includes_eq_false_cons]
        refine ⟨?_, hq⟩
        rw [Bool.eq_false_iff]
        intro hpre
        rw [isPrefixOf_sepNN] at hpre
        rcases splitNN_head _ _ _ hX with h0 | h0
        · rw [h0] at hpre
          exact absurd hpre.2 (by simp)
        · rw [h0] at hpre
          simp only [List.head?_cons, Option.some.injEq] at hpre
          exact hcd ⟨hpre.1, hpre.2⟩
      · exact ih p (List.mem_cons_of_mem _ hp)

theorem splitNN_of_not_includes (s : Str) (h : includes s sepNN = false) : splitNN s = [s] := by
  induction s using splitNN.induct with
  | case1 => rfl
  | case2 c => rfl
  | case3 c d rest hcd ih =>
    obtain ⟨rfl, rfl⟩ := hcd
    simp [includes, sepNN] at h
  | case4 c d rest hcd ih =>
    rw [includes_eq_false_cons] at h
    rw [splitNN_no_sep c d rest hcd, ih h.2]
    rfl

theorem getLastD_splitNN_of_no_triple (s : Str) (h : includes s tripleNN = false) :
    (splitNN s).getLastD [] = afterLastNN s := by
  induction s using splitNN.induct with
  | case1 => rfl
  | case2 c => simp [splitNN, afterLastNN, includes, sepNN, List.isPrefixOf]
  | case3 c d rest hcd ih =>
    obtain ⟨rfl, rfl⟩ := hcd
    rw [includes_eq_false_cons] at h
    have hrest : includes rest tripleNN = false := by
      have h2 := h.2
      rw [includes_eq_false_cons] at h2
      exact h2.2
    have hhead : sepNN.isPrefixOf ('\n' :: rest) = false := by
      rw [Bool.eq_false_iff]
      intro hp
      rw [isPrefixOf_sepNN] at hp
      have h1 := h.1
      cases rest with
      | nil => simp at hp
      | cons e es =>
        simp at hp
        subst hp
        simp [tripleNN, List.isPrefixOf] at h1
    rw [splitNN_sep, List.getLastD_cons]
    cases hX : splitNN rest with
    | nil => exact absurd hX (splitNN_ne_nil _)
    | cons q qs =>
      rw [List.getLastD_cons, ← List.getLastD_cons [] q qs, ← hX]
      by_cases hin : includes rest sepNN = true
      · rw [ih hrest]
        have e1 : afterLastNN ('\n' :: '\n' :: rest) = afterLastNN ('\n' :: rest) := by
          rw [afterLastNN]
          simp [includes, hin]
        have e2 : afterLastNN ('\n' :: rest) = afterLastNN rest := by
          rw [afterLastNN]
          simp [hin]
        rw [e1, e2]
      · rw [Bool.not_eq_true] at hin
        rw [splitNN_of_not_includes rest hin]
        have hin2 : includes ('\n' :: rest) sepNN = false := by
          rw [includes_eq_false_cons]
          exact ⟨hhead, hin⟩
        rw [afterLastNN, hin2]
        simp [sepNN, List.isPrefixOf]
  | case4 c d rest hcd ih =>
    rw [includes_eq_false_cons] at h
    rw [splitNN_no_sep c d rest hcd]
    by_cases hin : includes (d :: rest) sepNN = true
    · have e1 : afterLastNN (c :: d :: rest) = afterLastNN (d :: rest) := by
        rw [afterLastNN]
        simp [hin]
      rw [e1, ← ih h.2]
      cases hX : splitNN (d :: rest) with
      | nil => exact absurd hX (splitNN_ne_nil _)
      | cons q qs =>
        cases qs with
        | nil =>
          have hq := splitNN_pieces (d :: rest) q (by rw [hX]; exact List.mem_cons_self _ _)
          rw [← splitNN_singleton _ _ hX, hq] at hin
          exact absurd hin (by simp)
        | cons r rs => exact getLastD_consHead c q (r :: rs) (by simp)
    · rw [Bool.not_eq_true] at hin
      rw [splitNN_of_not_includes _ hin]
      have hpre : sepNN.isPrefixOf (c :: d :: rest) = false := by
        rw [Bool.eq_false_iff]
        intro hp
        rw [isPrefixOf_sepNN] at hp
        simp at hp
        exact hcd hp
      rw [afterLastNN]
      simp [hin, hpre, consHead]

/-! ## C1: a chunk fed in two halves -/

/-- C1 (as amended). Feeding a text as two chunks `A`, `B` or as the one chunk
`A ++ B` (with any reads after it, from any state) runs the loop body on the
same lines in the same order with the same effects, ends with the same
outcome and leaves the same state (text, message, saves, models, notices) up
to the local buffer; the buffer is the same too unless the loop was left on a
line of `A`, through `return` or through the error thrown at line 767. -/
theorem split_chunk_robust (parse : Str → Option JsVal) (st : ChatState) (A B : Str)
    (rest : List ReadResult) :
    (traceStream parse st (.value A :: .value B :: rest)).map (fun x => (x.1, x.2.core)) =
        (traceStream parse st (.value (A ++ B) :: rest)).map (fun x => (x.1, x.2.core)) ∧
      (processStream parse st (.value A :: .value B :: rest)).2 =
        (processStream parse st (.value (A ++ B) :: rest)).2 ∧
      (processStream parse st (.value A :: .value B :: rest)).1.core =
        (processStream parse st (.value (A ++ B) :: rest)).1.core ∧
      ((ingest parse st A).2 = .next →
        processStream parse st (.value A :: .value B :: rest) =
          processStream parse st (.value (A ++ B) :: rest)) := by
  have hi := ingest_append parse st A B
  have ht := traceChunk_append parse st A B
  simp only [traceStream, processStream]
  rw [hi, List.map_append, List.map_append, ht]
  cases h : ingest parse st A with
  | mk sA f =>
    cases f with
    | ret =>
      simp only [List.append_nil, List.map_nil]
      refine ⟨trivial, trivial, rfl, ?_⟩
      intro hf
      cases hf
    | thrown =>
      simp only [List.append_nil, List.map_nil]
      refine ⟨trivial, trivial, rfl, ?_⟩
      intro hf
      cases hf
    | next =>
      simp only [List.map_append, List.append_assoc]
      exact ⟨trivial, trivial, trivial, fun _ => trivial⟩

/-- C1, the claim as written fails for the residual buffer: when the `[DONE]`
line is in the first chunk the loop returns before the second chunk is read
and the buffer is empty, while the same text fed as one chunk leaves `x` in
the buffer. -/
theorem split_chunk_buffer_differs :
    (processStream parseNothing (initState [])
        [.value "data: [DONE]\n\n".toList, .value "x".toList]).1.buffer = [] ∧
      (processStream parseNothing (initState [])
        [.value ("data: [DONE]\n\n".toList ++ "x".toList)]).1.buffer = "x".toList := by
  decide

/-- C1, an instance: a frame cut in the middle of its payload. -/
theorem split_chunk_robust_witness :
    (ingest parseNothing (initState []) "data: Hel".toList).2 = .next ∧
      processStream parseNothing (initState [])
          [.value "data: Hel".toList, .value "lo\n\ndata: [DONE]\n\n".toList] =
        processStream parseNothing (initState [])
          [.value ("data: Hel".toList ++ "lo\n\ndata: [DONE]\n\n".toList)] :=
  ⟨by decide,
    (split_chunk_robust parseNothing (initState []) "data: Hel".toList
      "lo\n\ndata: [DONE]\n\n".toList []).2.2.2 (by decide)⟩

/-! ## C9: what the buffer retains -/

theorem traceLines_fst (parse : Str → Option JsVal) (st : ChatState) (lines : List Str)
    (h : (processLines parse st lines).2 = .next) :
    (traceLines parse st lines).map Prod.fst = lines := by
  induction lines generalizing st with
  | nil => rfl
  | cons l ls ih =>
    rw [processLines] at h
    rw [traceLines]
    cases hp : processLine parse st l with
    | mk st1 f =>
      rw [hp] at h
      cases f with
      | ret => simp at h
      | thrown => simp at h
      | next =>
        simp only at h ⊢
        rw [List.map_cons, ih st1 h]

theorem dropLast_append_getLastD (xs : List Str) (h : xs ≠ []) :
    xs.dropLast ++ [xs.getLastD []] = xs := by
  rw [List.getLastD_eq_getLast?, List.getLast?_eq_getLast _ h]
  exact List.dropLast_append_getLast h

/-- C9 (as amended). After a chunk is taken in, the lines handed to the loop
body followed by the retained buffer are exactly the pieces of the
left-to-right split of (previous buffer ++ chunk) at double newlines, in order:
joined by double newlines they give that text back, and the retained buffer
contains no double newline.  The retained buffer is the part after the last
double newline of the text whenever the text has no three newlines in a row.
When no line makes the loop return (or throw), the loop body runs on exactly
these lines in order and the buffer is still the retained piece. -/
theorem buffer_invariant (parse : Str → Option JsVal) (st : ChatState) (chunk : Str) :
    (takeLines st chunk).2 ++ [(takeLines st chunk).1.buffer] = splitNN (st.buffer ++ chunk) ∧
      sepNN.intercalate ((takeLines st chunk).2 ++ [(takeLines st chunk).1.buffer]) =
        st.buffer ++ chunk ∧
      includes (takeLines st chunk).1.buffer sepNN = false ∧
      (includes (st.buffer ++ chunk) tripleNN = false →
        (takeLines st chunk).1.buffer = afterLastNN (st.buffer ++ chunk)) ∧
      (ingest parse st chunk).1.buffer = (takeLines st chunk).1.buffer ∧
      ((ingest parse st chunk).2 = .next →
        (traceLines parse (takeLines st chunk).1 (takeLines st chunk).2).map Prod.fst =
          (takeLines st chunk).2) := by
  have hne := splitNN_ne_nil (st.buffer ++ chunk)
  have h1 : (takeLines st chunk).2 ++ [(takeLines st chunk).1.buffer] =
      splitNN (st.buffer ++ chunk) := by
    simp only [takeLines]
    exact dropLast_append_getLastD _ hne
  refine ⟨h1, ?_, ?_, ?_, ?_, ?_⟩
  · rw [h1, intercalate_splitNN]
  · apply splitNN_pieces (st.buffer ++ chunk)
    rw [← h1]
    simp
  · intro h
    exact getLastD_splitNN_of_no_triple _ h
  · exact processLines_buffer parse _ _
  · intro h
    exact traceLines_fst parse _ _ h

/-- C9, the claim as written fails: on the chunk `a\n\n\nb` no line makes the
loop return and the retained buffer is `\nb`, while the part of the text after
its last double newline is `b`. -/
theorem buffer_not_after_last_double_newline :
    (ingest parseNothing (initState []) "a\n\n\nb".toList).2 = .next ∧
      (ingest parseNothing (initState []) "a\n\n\nb".toList).1.buffer = "\nb".toList ∧
      afterLastNN ((initState []).buffer ++ "a\n\n\nb".toList) = "b".toList := by
  decide

/-- C9, an instance: the chunk `data: Hi\n\nda` from the empty buffer. -/
theorem buffer_invariant_witness :
    (ingest parseNothing (initState []) "data: Hi\n\nda".toList).2 = .next ∧
      (initState []).buffer ++ "data: Hi\n\nda".toList = "data: Hi\n\nda".toList ∧
      (takeLines (initState []) "data: Hi\n\nda".toList).1.buffer = "da".toList ∧
      (traceLines parseNothing (takeLines (initState []) "data: Hi\n\nda".toList).1
        (takeLines (initState []) "data: Hi\n\nda".toList).2).map Prod.fst =
          ["data: Hi".toList] :=
  ⟨by decide, by decide,
    ((buffer_invariant parseNothing (initState []) "data: Hi\n\nda".toList).2.2.2.1
      (by decide)).trans (by decide),
    ((buffer_invariant parseNothing (initState []) "data: Hi\n\nda".toList).2.2.2.2.2
      (by decide)).trans (by decide)⟩

theorem processLine_eq_applyFrame (parse : Str → Option JsVal) (st : ChatState) (line : Str) :
    processLine parse st line =
      match frameOf parse line with
      | none => (st, .next)
      | some f => applyFrame st f := by
  unfold processLine frameOf
  split
  · rfl
  · simp only
    split
    · rfl
    · split
      · split <;> rename_i h <;> simp only [h] <;> rfl
      · split
        · rfl
        · split <;> rfl

/-! ## C2: the accumulated text -/

theorem processLines_fullResponse (parse : Str → Option JsVal) (st : ChatState)
    (lines : List Str) :
    (processLines parse st lines).1.fullResponse =
      st.fullResponse ++ ((((lines.filterMap (frameOf parse)).takeWhile
        (fun f => !f.stopsLoop)).map StreamFrame.payload).flatten) := by
  induction lines generalizing st with
  | nil => simp [processLines]
  | cons l ls ih =>
    rw [processLines, processLine_eq_applyFrame, List.filterMap_cons]
    cases hf : frameOf parse l with
    | none => simp only; exact ih st
    | some f =>
      cases f with
      | content text =>
        rw [List.takeWhile_cons_of_pos (by rfl)]
        simp only [applyFrame]
        rw [ih]
        simp [onContent, StreamFrame.payload]
      | done =>
        rw [List.takeWhile_cons_of_neg (by simp [StreamFrame.stopsLoop])]
        simp [applyFrame, onDone]
      | broken =>
        rw [List.takeWhile_cons_of_neg (by simp [StreamFrame.stopsLoop])]
        simp [applyFrame]
      | error message fb =>
        cases fb with
        | none =>
          rw [List.takeWhile_cons_of_neg (by simp [StreamFrame.stopsLoop])]
          simp [applyFrame, onFatal]
        | some m =>
          rw [List.takeWhile_cons_of_pos (by rfl)]
          simp only [applyFrame]
          rw [ih]
          simp [onFallback, StreamFrame.payload]
      | metadata =>
        rw [List.takeWhile_cons_of_pos (by rfl)]
        simp only [applyFrame]
        rw [ih]
        simp [StreamFrame.payload]

/-- Two chunks or their concatenation as one chunk leave the same state up to
the buffer, whatever is read after them. -/
theorem processStream_split_core (parse : Str → Option JsVal) (st : ChatState) (A B : Str)
    (rest : List ReadResult) :
    (processStream parse st (.value A :: .value B :: rest)).1.core =
      (processStream parse st (.value (A ++ B) :: rest)).1.core := by
  simp only [processStream]
  rw [ingest_append parse st A B]
  cases h : ingest parse st A with
  | mk sA f => cases f <;> rfl

/-- Chunks fed one after the other leave, up to the buffer, the state that
their concatenation fed as one chunk leaves. -/
theorem processStream_values (parse : Str → Option JsVal) (st : ChatState) (c : Str)
    (cs : List Str) :
    (processStream parse st (.value c :: cs.map .value)).1.core =
      (ingest parse st (c ++ cs.flatten)).1.core := by
  induction cs generalizing c with
  | nil =>
    simp only [List.map_nil, List.flatten_nil, List.append_nil, processStream]
    cases h : ingest parse st c with
    | mk s f => cases f <;> rfl
  | cons d ds ih =>
    have h := processStream_split_core parse st c d (ds.map .value)
    rw [List.map_cons, h, ih (c ++ d)]
    simp

theorem processStream_values_end (parse : Str → Option JsVal) (st : ChatState)
    (cs : List Str) (r : ReadResult) (rest : List ReadResult) (hr : r = .done ∨ r = .fail) :
    (processStream parse st (cs.map .value ++ r :: rest)).1.fullResponse =
      (processStream parse st (cs.map .value)).1.fullResponse := by
  induction cs generalizing st with
  | nil => rcases hr with rfl | rfl <;> rfl
  | cons c cs ih =>
    simp only [List.map_cons, List.cons_append, processStream]
    cases h : ingest parse st c with
    | mk s f =>
      cases f with
      | ret => rfl
      | thrown => rfl
      | next => exact ih s

/-- What the loop accumulates.  From the state in which `processStream` starts,
for every sequence of chunks (whether the reads stop there, or the stream then
ends or fails), `fullResponse` is the concatenation, in arrival order, of the
content payloads of the complete frames of the stream that come before the
first frame at which the loop stops: a terminal frame, or a frame on which the
conversion of line 767 throws. -/
theorem fullResponse_eq_textUntilStop (parse : Str → Option JsVal) (model : Str)
    (chunks : List Str) (rest : List ReadResult) :
    (processStream parse (initState model) (chunks.map .value)).1.fullResponse =
        textUntilStop parse chunks.flatten ∧
      (processStream parse (initState model) (chunks.map .value ++ .done :: rest)).1.fullResponse =
        textUntilStop parse chunks.flatten ∧
      (runStream parse (initState model) (chunks.map .value ++ .fail :: rest)).1.fullResponse =
        textUntilStop parse chunks.flatten := by
  have key : (processStream parse (initState model) (chunks.map .value)).1.fullResponse =
      textUntilStop parse chunks.flatten := by
    cases chunks with
    | nil => rfl
    | cons c cs =>
      have h := congrArg ChatState.fullResponse
        (processStream_values parse (initState model) c cs)
      simp only [ChatState.core] at h
      rw [List.map_cons, h, List.flatten_cons]
      unfold ingest
      rw [processLines_fullResponse]
      rfl
  refine ⟨key, ?_, ?_⟩
  · rw [processStream_values_end parse _ _ _ _ (Or.inl rfl), key]
  · rw [← key, ← processStream_values_end parse (initState model) chunks .fail rest (Or.inr rfl)]
    unfold runStream
    cases h : processStream parse (initState model) (chunks.map .value ++ .fail :: rest) with
    | mk s o => cases o <;> rfl

/-- C2, the code at the failing input: the chunk with the frames `Hi`,
`{"toString":1}` and `more`.  The second frame parses to an object that has an
own property `toString`; `String(contentChunk)` at line 767, outside the `try`
block, throws on it.  `processStream` rejects, the handler of lines 789-803
marks the reply as failed, and `fullResponse` is `Hi`: the payload `more` of
the third frame is dropped although no terminal frame comes before it, while
the text that the claim describes is `Himore`. -/
theorem conversion_error_drops_later_payload :
    runStream (parseTable [("\x7b\"toString\":1\x7d".toList, .obj [("toString".toList, .num "1".toList)])])
        (initState [])
        [.value "data: Hi\n\ndata: \x7b\"toString\":1\x7d\n\ndata: more\n\n".toList] =
      ({ initState [] with
          fullResponse := "Hi".toList
          aiMessage := { content := "**错误: 处理响应流时出错**".toList, isStreaming := false }
          notices := [Notice.error "处理响应流时出错".toList]
          loading := false },
        .failed) ∧
      (completeFrames "data: Hi\n\ndata: \x7b\"toString\":1\x7d\n\ndata: more\n\n".toList).filterMap
          (frameOf (parseTable
            [("\x7b\"toString\":1\x7d".toList, .obj [("toString".toList, .num "1".toList)])])) =
        [.content "Hi".toList, .broken, .content "more".toList] ∧
      expectedText
          (parseTable [("\x7b\"toString\":1\x7d".toList, .obj [("toString".toList, .num "1".toList)])])
          "data: Hi\n\ndata: \x7b\"toString\":1\x7d\n\ndata: more\n\n".toList =
        "Himore".toList := by
  decide

/-! ## Trimmed texts -/

theorem dropWhile_eq_self_of_length {α : Type} (f : α → Bool) (l : List α)
    (h : l.length ≤ (l.dropWhile f).length) : l.dropWhile f = l :=
  (List.dropWhile_suffix f).eq_of_length (Nat.le_antisymm (List.dropWhile_suffix f).length_le h)

theorem trim_length_le (s : Str) : (trim s).length ≤ (s.dropWhile isJsSpace).length := by
  unfold trim
  rw [List.length_reverse]
  refine le_trans (List.dropWhile_suffix _).length_le ?_
  rw [List.length_reverse]

/-- A trimmed text starts with no white space. -/
theorem dropWhile_of_trim_eq (p : Str) (h : trim p = p) : p.dropWhile isJsSpace = p := by
  apply dropWhile_eq_self_of_length
  have := trim_length_le p
  rwa [h] at this

/-- A trimmed text ends with no white space. -/
theorem dropWhile_reverse_of_trim_eq (p : Str) (h : trim p = p) :
    p.reverse.dropWhile isJsSpace = p.reverse := by
  have h1 := dropWhile_of_trim_eq p h
  unfold trim at h
  rw [h1] at h
  have := congrArg List.reverse h
  rwa [List.reverse_reverse] at this

theorem getLast?_of_trim_eq (p : Str) (h : trim p = p) (c : Char) (hc : p.getLast? = some c) :
    isJsSpace c = false := by
  have h2 := dropWhile_reverse_of_trim_eq p h
  rw [List.getLast?_eq_head?_reverse] at hc
  cases hr : p.reverse with
  | nil => rw [hr] at hc; simp at hc
  | cons d ds =>
    rw [hr] at hc h2
    simp only [List.head?_cons, Option.some.injEq] at hc
    subst hc
    by_contra hsp
    rw [Bool.not_eq_false] at hsp
    rw [List.dropWhile_cons_of_pos hsp] at h2
    have := (List.dropWhile_suffix isJsSpace (l := ds)).length_le
    rw [h2] at this
    simp at this

theorem trim_isEmpty_false (s : Str) (c : Char) (hc : c ∈ s) (hs : isJsSpace c = false) :
    (trim s).isEmpty = false := by
  rw [Bool.eq_false_iff]
  intro he
  rw [List.isEmpty_iff] at he
  unfold trim at he
  rw [List.reverse_eq_nil_iff, List.dropWhile_eq_nil_iff] at he
  have h1 : ∀ x ∈ s.dropWhile isJsSpace, isJsSpace x = true := by
    intro x hx
    exact he x (List.mem_reverse.2 hx)
  have h2 : s.dropWhile isJsSpace = [] := by
    cases hd : s.dropWhile isJsSpace with
    | nil => rfl
    | cons y ys =>
      have hy := List.head_dropWhile_not isJsSpace s (by rw [hd]; simp)
      simp only [hd, List.head_cons] at hy
      rw [h1 y (by rw [hd]; exact List.mem_cons_self _ _)] at hy
      simp at hy
  rw [List.dropWhile_eq_nil_iff] at h2
  rw [h2 c hc] at hs
  simp at hs

/-! ## Chunks that carry one frame each -/

/-- A text without double newline that does not end in a newline, followed by
a double newline, splits into itself and the empty piece. -/
theorem splitNN_frame (s : Str) (h1 : includes s sepNN = false)
    (h2 : s.getLast? ≠ some '\n') : splitNN (s ++ sepNN) = [s, []] := by
  induction s using splitNN.induct with
  | case1 => simp [sepNN, splitNN]
  | case2 c =>
    have hc : c ≠ '\n' := by simpa using h2
    simp [sepNN, splitNN, hc, consHead]
  | case3 c d rest hcd ih =>
    obtain ⟨rfl, rfl⟩ := hcd
    simp [includes, sepNN] at h1
  | case4 c d rest hcd ih =>
    rw [includes_eq_false_cons] at h1
    have h3 : (d :: rest).getLast? ≠ some '\n' := by
      rwa [List.getLast?_cons_cons] at h2
    have e : c :: d :: rest ++ sepNN = c :: d :: (rest ++ sepNN) := rfl
    rw [e, splitNN_no_sep c d _ hcd]
    have e2 : d :: (rest ++ sepNN) = d :: rest ++ sepNN := rfl
    rw [e2, ih h1.2 h3]
    rfl

theorem includes_data_marker (p : Str) (h : includes p sepNN = false) :
    includes ("data: ".toList ++ p) sepNN = false := by
  have e : "data: ".toList ++ p = 'd' :: 'a' :: 't' :: 'a' :: ':' :: ' ' :: p := rfl
  rw [e]
  simp only [includes_eq_false_cons, h, and_true]
  refine ⟨?_, ?_, ?_, ?_, ?_, ?_⟩ <;>
    · rw [Bool.eq_false_iff, Ne, isPrefixOf_sepNN]
      simp

theorem takeLines_frameChunk (st : ChatState) (p : Str) (hb : st.buffer = [])
    (ht : trim p = p) (hs : includes p sepNN = false) :
    takeLines st (frameChunk p) = (st, ["data: ".toList ++ p]) := by
  have hlast : ("data: ".toList ++ p).getLast? ≠ some '\n' := by
    intro h
    cases hp : p.getLast? with
    | none =>
      rw [List.getLast?_eq_none_iff] at hp
      subst hp
      revert h
      decide
    | some c =>
      have hc := getLast?_of_trim_eq p ht c hp
      rw [List.getLast?_append, hp] at h
      simp only [Option.or_some, Option.some.injEq] at h
      subst h
      revert hc
      decide
  have hsp := splitNN_frame _ (includes_data_marker p hs) hlast
  unfold takeLines frameChunk
  rw [hb, List.nil_append, hsp]
  cases st
  simp at hb
  simp [hb]

theorem processLine_plain (parse : Str → Option JsVal) (st : ChatState) (p : Str)
    (ht : trim p = p) (hp : isPlainText p = true) :
    processLine parse st ("data: ".toList ++ p) = (onContent st p, .next) := by
  have h1 : (trim ("data: ".toList ++ p)).isEmpty = false :=
    trim_isEmpty_false _ 'd' (by simp) (by decide)
  have h2 : stripData ("data: ".toList ++ p) = p := by
    unfold stripData startsWith
    rw [List.isPrefixOf_iff_prefix.2 (List.prefix_append _ _)]
    rfl
  simp only [isPlainText, Bool.and_eq_true, Bool.not_eq_true', bne_iff_ne, ne_eq] at hp
  obtain ⟨⟨hd, he⟩, hj⟩ := hp
  unfold processLine
  rw [h1, h2, ht]
  simp only [Bool.false_eq_true, if_false]
  rw [if_neg hd, he]
  simp only [Bool.false_eq_true, if_false, contentOf, hj, chunkText]

theorem processLine_done (parse : Str → Option JsVal) (st : ChatState) :
    processLine parse st "data: [DONE]".toList = (onDone st, .ret) := by
  have h1 : (trim "data: [DONE]".toList).isEmpty = false := by decide
  have h2 : trim (stripData "data: [DONE]".toList) = "[DONE]".toList := by decide
  unfold processLine
  rw [h1, h2]
  simp

theorem ingest_frameChunk (parse : Str → Option JsVal) (st : ChatState) (p : Str)
    (hb : st.buffer = []) (ht : trim p = p) (hs : includes p sepNN = false)
    (hp : isPlainText p = true) :
    ingest parse st (frameChunk p) = (onContent st p, .next) := by
  unfold ingest
  rw [takeLines_frameChunk st p hb ht hs]
  simp only [processLines, processLine_plain parse st p ht hp]

theorem ingest_doneChunk (parse : Str → Option JsVal) (st : ChatState) (hb : st.buffer = []) :
    ingest parse st (frameChunk "[DONE]".toList) = (onDone st, .ret) := by
  have e : takeLines st (frameChunk "[DONE]".toList) = (st, ["data: [DONE]".toList]) := by
    unfold takeLines
    rw [hb]
    have : splitNN ([] ++ frameChunk "[DONE]".toList) = ["data: [DONE]".toList, []] := by decide
    rw [this]
    cases st
    simp at hb
    simp [hb]
  unfold ingest
  rw [e]
  simp only [processLines, processLine_done]

/-! ## C3: the end-to-end scenario -/

theorem foldl_onContent_buffer (st : ChatState) (ps : List Str) :
    (ps.foldl onContent st).buffer = st.buffer := by
  induction ps generalizing st with
  | nil => rfl
  | cons p ps ih => rw [List.foldl_cons, ih]; rfl

theorem onDone_foldl_onContent (st : ChatState) (ps : List Str) :
    onDone (ps.foldl onContent st) =
      onDone { st with fullResponse := st.fullResponse ++ ps.flatten } := by
  induction ps generalizing st with
  | nil => simp
  | cons p ps ih =>
    rw [List.foldl_cons, ih]
    simp [onDone, onContent, List.append_assoc]

theorem processStream_frameChunks (parse : Str → Option JsVal) (st : ChatState)
    (ps : List Str) (tail : List ReadResult) (hb : st.buffer = [])
    (h : ∀ p ∈ ps, isPlainText p = true ∧ trim p = p ∧ includes p sepNN = false) :
    processStream parse st (ps.map (fun p => .value (frameChunk p)) ++ tail) =
      processStream parse (ps.foldl onContent st) tail := by
  induction ps generalizing st with
  | nil => rfl
  | cons p ps ih =>
    obtain ⟨hp, ht, hs⟩ := h p (List.mem_cons_self _ _)
    simp only [List.map_cons, List.cons_append, processStream, List.foldl_cons]
    rw [ingest_frameChunk parse st p hb ht hs hp]
    exact ih (onContent st p) hb (fun q hq => h q (List.mem_cons_of_mem _ hq))

/-- C3 (as amended). For every list of plain-text payloads that have no white
space at either end and contain no double newline, the chunks `data: p1\n\n`,
..., `data: pn\n\n`, `data: [DONE]\n\n` (whatever is read after them) leave the
reply with the text `p1 ++ ... ++ pn`, not streaming, the loop returned, and
the save scheduled once with that text when the text is not blank, and not at
all when it is. -/
theorem end_to_end (parse : Str → Option JsVal) (model : Str) (ps : List Str)
    (rest : List ReadResult)
    (h : ∀ p ∈ ps, isPlainText p = true ∧ trim p = p ∧ includes p sepNN = false) :
    processStream parse (initState model)
        (ps.map (fun p => .value (frameChunk p)) ++
          .value (frameChunk "[DONE]".toList) :: rest) =
      ({ initState model with
          fullResponse := ps.flatten
          aiMessage := { content := ps.flatten, isStreaming := false }
          loading := false
          saves := if (trim ps.flatten).isEmpty then [] else [ps.flatten] },
        .returned) := by
  rw [processStream_frameChunks parse _ ps _ rfl h, processStream,
    ingest_doneChunk parse _ (by rw [foldl_onContent_buffer]; rfl), onDone_foldl_onContent]
  simp [onDone, initState]

/-- C3, the scenario of the specification: `Hello` and `, world` give
`Hello, world`, completed, saved once. -/
theorem end_to_end_witness :
    processStream parseNothing (initState "gpt-4o".toList)
        [.value "data: Hello\n\n".toList, .value "data: , world\n\n".toList,
          .value "data: [DONE]\n\n".toList] =
      ({ initState "gpt-4o".toList with
          fullResponse := "Hello, world".toList
          aiMessage := { content := "Hello, world".toList, isStreaming := false }
          loading := false
          saves := ["Hello, world".toList] },
        .returned) :=
  end_to_end parseNothing "gpt-4o".toList ["Hello".toList, ", world".toList] [] (by decide)

/-- C3, the claim as written fails: the plain-text payloads `Hello` and
` world` leave the text `Helloworld` (the white space at the ends of a payload
is dropped), and with no payload at all the save is not invoked. -/
theorem end_to_end_fails :
    (∀ p ∈ ["Hello".toList, " world".toList], isPlainText p = true) ∧
      (processStream parseNothing (initState [])
        [.value (frameChunk "Hello".toList), .value (frameChunk " world".toList),
          .value (frameChunk "[DONE]".toList)]).1.fullResponse = "Helloworld".toList ∧
      ["Hello".toList, " world".toList].flatten = "Hello world".toList ∧
      (processStream parseNothing (initState [])
        [.value (frameChunk "[DONE]".toList)]).1.saves = [] := by
  decide

/-! ## C4: the text only grows -/

theorem applyFrame_fullResponse (st : ChatState) (f : StreamFrame) :
    st.fullResponse <+: (applyFrame st f).1.fullResponse := by
  cases f with
  | content text => exact List.prefix_append _ _
  | done => exact List.prefix_refl _
  | error message fb => cases fb <;> exact List.prefix_refl _
  | metadata => exact List.prefix_refl _
  | broken => exact List.prefix_refl _

theorem processLine_fullResponse (parse : Str → Option JsVal) (st : ChatState) (line : Str) :
    st.fullResponse <+: (processLine parse st line).1.fullResponse := by
  rw [processLine_eq_applyFrame]
  cases frameOf parse line with
  | none => exact List.prefix_refl _
  | some f => exact applyFrame_fullResponse st f

theorem pairwise_glue {α : Type} (R : α → α → Prop) (htrans : ∀ a b c, R a b → R b c → R a c)
    (X Y : List α) (m : α) (hX : List.Pairwise R (X ++ [m])) (hY : List.Pairwise R (m :: Y)) :
    List.Pairwise R (X ++ Y) := by
  rw [List.pairwise_append] at hX ⊢
  rw [List.pairwise_cons] at hY
  refine ⟨hX.1, hY.2, ?_⟩
  intro a ha b hb
  exact htrans a m b (hX.2.2 a ha m (by simp)) (hY.1 b hb)

theorem traceLines_pairwise (parse : Str → Option JsVal) (st : ChatState) (lines : List Str) :
    List.Pairwise (fun a b => a <+: b)
      (st.fullResponse :: (traceLines parse st lines).map (fun x => x.2.fullResponse) ++
        [(processLines parse st lines).1.fullResponse]) := by
  induction lines generalizing st with
  | nil => simp [traceLines, processLines]
  | cons l ls ih =>
    have hp := processLine_fullResponse parse st l
    rw [traceLines, processLines]
    cases h : processLine parse st l with
    | mk st1 f =>
      rw [h] at hp
      cases f with
      | ret => simpa using hp
      | thrown => simpa using hp
      | next =>
        have := ih st1
        simp only [List.map_cons, List.cons_append] at this ⊢
        rw [List.pairwise_cons] at this ⊢
        refine ⟨?_, List.pairwise_cons.2 this⟩
        intro x hx
        rcases List.mem_cons.1 hx with rfl | hx
        · exact hp
        · exact hp.trans (this.1 x hx)

/-- C4. The values of `fullResponse` at the successive observation points of a
run (at the start, after each run of the loop body, at the end) form a chain:
each is a prefix of every later one, and so of the final text. -/
theorem fullResponse_append_only (parse : Str → Option JsVal) (st : ChatState)
    (reads : List ReadResult) :
    List.Pairwise (fun a b => a <+: b)
      (st.fullResponse :: (traceStream parse st reads).map (fun x => x.2.fullResponse) ++
        [(processStream parse st reads).1.fullResponse]) := by
  induction reads generalizing st with
  | nil => simp [traceStream, processStream]
  | cons r rest ih =>
    cases r with
    | done => simp [traceStream, processStream]
    | fail => simp [traceStream, processStream]
    | value chunk =>
      have hA := traceLines_pairwise parse (takeLines st chunk).1 (takeLines st chunk).2
      have e : (takeLines st chunk).1.fullResponse = st.fullResponse := rfl
      rw [e] at hA
      rw [traceStream, processStream]
      change List.Pairwise _ (_ :: List.map _ (traceLines parse (takeLines st chunk).1
        (takeLines st chunk).2) ++ [(ingest parse st chunk).1.fullResponse]) at hA
      cases h : ingest parse st chunk with
      | mk s2 f =>
        rw [h] at hA
        cases f with
        | ret => simpa using hA
        | thrown => simpa using hA
        | next =>
          have hB := ih s2
          simp only [List.map_append]
          have := pairwise_glue (fun a b : Str => a <+: b) (fun a b c => List.IsPrefix.trans)
            _ _ _ hA hB
          simpa using this

/-! ## C5: nothing happens after a terminal frame -/

/-- The loop body returns exactly on a terminal frame: the end marker or a
fatal error. -/
theorem processLine_ret_iff (parse : Str → Option JsVal) (st : ChatState) (line : Str) :
    (processLine parse st line).2 = .ret ↔
      ∃ f, frameOf parse line = some f ∧ f.isTerminal = true := by
  rw [processLine_eq_applyFrame]
  cases frameOf parse line with
  | none => simp
  | some f =>
    cases f with
    | content text => simp [applyFrame, StreamFrame.isTerminal]
    | done => simp [applyFrame, StreamFrame.isTerminal]
    | error message fb => cases fb <;> simp [applyFrame, StreamFrame.isTerminal]
    | metadata => simp [applyFrame, StreamFrame.isTerminal]
    | broken => simp [applyFrame, StreamFrame.isTerminal]

theorem traceLines_terminal (parse : Str → Option JsVal) (st : ChatState) (lines : List Str)
    (pre post : List (Str × ChatState)) (line : Str) (s : ChatState)
    (ht : traceLines parse st lines = pre ++ (line, s) :: post)
    (hf : ∃ f, frameOf parse line = some f ∧ f.isTerminal = true) :
    post = [] ∧ processLines parse st lines = (s, .ret) := by
  induction lines generalizing st pre with
  | nil => simp [traceLines] at ht
  | cons l ls ih =>
    rw [traceLines] at ht
    rw [processLines]
    cases h : processLine parse st l with
    | mk st1 f =>
      rw [h] at ht
      cases f with
      | ret =>
        simp only at ht ⊢
        cases pre with
        | nil =>
          simp only [List.nil_append, List.cons.injEq, Prod.mk.injEq] at ht
          obtain ⟨⟨-, rfl⟩, rfl⟩ := ht
          exact ⟨rfl, rfl⟩
        | cons x xs =>
          simp only [List.cons_append, List.cons.injEq] at ht
          exact absurd ht.2.symm (by simp)
      | thrown =>
        simp only at ht ⊢
        cases pre with
        | nil =>
          simp only [List.nil_append, List.cons.injEq, Prod.mk.injEq] at ht
          obtain ⟨⟨rfl, -⟩, -⟩ := ht
          have := (processLine_ret_iff parse st l).2 hf
          rw [h] at this
          cases this
        | cons x xs =>
          simp only [List.cons_append, List.cons.injEq] at ht
          exact absurd ht.2.symm (by simp)
      | next =>
        simp only at ht ⊢
        cases pre with
        | nil =>
          simp only [List.nil_append, List.cons.injEq, Prod.mk.injEq] at ht
          obtain ⟨⟨rfl, -⟩, -⟩ := ht
          have := (processLine_ret_iff parse st l).2 hf
          rw [h] at this
          cases this
        | cons x xs =>
          simp only [List.cons_append, List.cons.injEq] at ht
          exact ih st1 xs ht.2

theorem traceStream_terminal (parse : Str → Option JsVal) (st : ChatState)
    (reads : List ReadResult) (pre post : List (Str × ChatState)) (line : Str) (s : ChatState)
    (ht : traceStream parse st reads = pre ++ (line, s) :: post)
    (hf : ∃ f, frameOf parse line = some f ∧ f.isTerminal = true) :
    post = [] ∧ processStream parse st reads = (s, .returned) := by
  induction reads generalizing st pre with
  | nil => simp [traceStream] at ht
  | cons r rest ih =>
    cases r with
    | done => simp [traceStream] at ht
    | fail => simp [traceStream] at ht
    | value chunk =>
      rw [traceStream] at ht
      rw [processStream]
      have hi : ingest parse st chunk =
          processLines parse (takeLines st chunk).1 (takeLines st chunk).2 := rfl
      cases h : ingest parse st chunk with
      | mk s2 f =>
        rw [h] at ht
        rw [h] at hi
        cases f with
        | ret =>
          simp only [List.append_nil] at ht ⊢
          obtain ⟨h1, h2⟩ := traceLines_terminal parse _ _ pre post line s ht hf
          rw [← hi] at h2
          simp only [Prod.mk.injEq, and_true] at h2
          exact ⟨h1, by rw [h2]⟩
        | thrown =>
          simp only [List.append_nil] at ht ⊢
          obtain ⟨-, h2⟩ := traceLines_terminal parse _ _ pre post line s ht hf
          rw [← hi] at h2
          cases h2
        | next =>
          simp only at ht ⊢
          rcases List.append_eq_append_iff.1 ht with ⟨a, h1, h2⟩ | ⟨b, h1, h2⟩
          · exact ih s2 a h2 
          · cases b with
            | nil =>
              simp only [List.append_nil, List.nil_append] at h1 h2
              exact ih s2 [] h2.symm 
            | cons y ys =>
              simp only [List.cons_append, List.cons.injEq] at h2
              obtain ⟨rfl, rfl⟩ := h2
              obtain ⟨-, h4⟩ := traceLines_terminal parse _ _ pre ys line s h1 hf
              rw [← hi] at h4
              cases h4

theorem processStream_returned_append (parse : Str → Option JsVal) (st s : ChatState)
    (reads more : List ReadResult) (h : processStream parse st reads = (s, .returned)) :
    processStream parse st (reads ++ more) = (s, .returned) ∧
      traceStream parse st (reads ++ more) = traceStream parse st reads := by
  induction reads generalizing st with
  | nil => simp [processStream] at h
  | cons r rest ih =>
    cases r with
    | done => simp [processStream] at h
    | fail => simp [processStream] at h
    | value chunk =>
      rw [processStream] at h
      simp only [List.cons_append, processStream, traceStream]
      cases hi : ingest parse st chunk with
      | mk s2 f =>
        rw [hi] at h
        cases f with
        | ret => exact ⟨h, rfl⟩
        | thrown => cases h
        | next =>
          simp only at h ⊢
          obtain ⟨h1, h2⟩ := ih s2 h
          exact ⟨h1, congrArg (fun t => _ ++ t) h2⟩

/-- C5. Once the loop body has run on a terminal frame (a `[DONE]` line or a
fatal `ERROR:` line), that frame is the last one it ever runs on, in the same
chunk or in later chunks: the state it leaves is the final state, the loop has
returned, and whatever is read afterwards changes neither the state (text,
message, saves) nor the list of processed frames. -/
theorem terminal_idempotent (parse : Str → Option JsVal) (st : ChatState)
    (reads more : List ReadResult) (pre post : List (Str × ChatState)) (line : Str)
    (s : ChatState)
    (ht : traceStream parse st reads = pre ++ (line, s) :: post)
    (hf : ∃ f, frameOf parse line = some f ∧ f.isTerminal = true) :
    post = [] ∧ processStream parse st (reads ++ more) = (s, .returned) ∧
      traceStream parse st (reads ++ more) = pre ++ [(line, s)] := by
  obtain ⟨h1, h2⟩ := traceStream_terminal parse st reads pre post line s ht hf
  obtain ⟨h3, h4⟩ := processStream_returned_append parse st s reads more h2
  subst h1
  exact ⟨rfl, h3, by rw [h4, ht]⟩

/-- C5, an instance: a chunk with a payload, the end marker and a late frame,
followed by one more chunk. -/
theorem terminal_idempotent_witness :
    traceStream parseNothing (initState [])
        [.value "data: Hi\n\ndata: [DONE]\n\ndata: late\n\n".toList] =
      [("data: Hi".toList, onContent (initState []) "Hi".toList)] ++
        ("data: [DONE]".toList, onDone (onContent (initState []) "Hi".toList)) :: [] ∧
      processStream parseNothing (initState [])
        ([.value "data: Hi\n\ndata: [DONE]\n\ndata: late\n\n".toList] ++
          [.value "data: more\n\n".toList]) =
        (onDone (onContent (initState []) "Hi".toList), .returned) :=
  ⟨by decide,
    (terminal_idempotent parseNothing (initState [])
      [.value "data: Hi\n\ndata: [DONE]\n\ndata: late\n\n".toList]
      [.value "data: more\n\n".toList]
      [("data: Hi".toList, onContent (initState []) "Hi".toList)] [] "data: [DONE]".toList
      (onDone (onContent (initState []) "Hi".toList)) (by decide)
      ⟨.done, by decide, rfl⟩).2.1⟩

/-! ## C6: the end of the stream -/

/-- C6, the code at the failing input: a chunk with one payload and then the
end of the stream.  The loop leaves through `break`, `loading` is reset, but
the message is still marked as streaming and no save is scheduled. -/
theorem stream_end_leaves_streaming :
    runStream parseNothing (initState []) [.value "data: Hello\n\n".toList, .done] =
      ({ initState [] with
          fullResponse := "Hello".toList
          aiMessage := { content := "Hello".toList, isStreaming := true }
          loading := false },
        .ended) := by
  decide

/-! ## C7: events after the timer has fired -/

/-- C7, the code at the failing input: the timer fires while the response is
awaited, then the response arrives and a frame is read.  The message left the
streaming state at the expiry, with the timeout text; the frame read afterwards
replaces its content. -/
theorem late_frame_overwrites_timeout :
    (runEvents parseNothing (sendStart []) [.timerExpiry]).chat.aiMessage =
        { content := "**错误: 响应超时，请重试**".toList, isStreaming := false } ∧
      (runEvents parseNothing (sendStart [])
          [.timerExpiry, .response true, .read (.value "data: hi\n\n".toList)]).chat.aiMessage =
        { content := "hi".toList, isStreaming := false } := by
  decide

/-! ## C8: what the timer covers -/

theorem runEvents_snoc (parse : Str → Option JsVal) (s : SendState) (events : List Event)
    (e : Event) :
    runEvents parse s (events ++ [e]) = step parse (runEvents parse s events) e := by
  simp [runEvents, List.foldl_append]

/-- While the timer is pending nothing has happened yet; and as long as the
response is awaited and the timer has not fired, the timer is pending. -/
theorem timer_invariant (parse : Str → Option JsVal) (model : Str) (events : List Event) :
    ((runEvents parse (sendStart model) events).timerArmed = true →
        runEvents parse (sendStart model) events = sendStart model) ∧
      ((runEvents parse (sendStart model) events).phase = .fetching →
        Event.timerExpiry ∉ events →
        (runEvents parse (sendStart model) events).timerArmed = true) := by
  induction events using List.reverseRecOn with
  | nil => exact ⟨fun _ => rfl, fun _ _ => rfl⟩
  | append_singleton evs e ih =>
    rw [runEvents_snoc]
    generalize runEvents parse (sendStart model) evs = s at ih ⊢
    obtain ⟨ih1, ih2⟩ := ih
    have hstart : (sendStart model).phase = .fetching := rfl
    cases e with
    | timerExpiry =>
      constructor
      · intro h
        simp only [step] at h
        split at h <;> simp_all
      · intro _ hno
        simp at hno
    | response ok =>
      constructor
      · intro h
        simp only [step] at h ⊢
        split at h
        · split at h <;> simp at h
        · rename_i hne
          have hs := ih1 h
          rw [hs] at hne
          exact absurd hstart (hne)
      · intro h hno
        simp only [step] at h
        split at h
        · split at h <;> simp at h
        · rename_i hne
          exact absurd h hne
    | fetchError =>
      constructor
      · intro h
        simp only [step] at h ⊢
        split at h
        · simp at h
        · rename_i hne
          have hs := ih1 h
          rw [hs] at hne
          exact absurd hstart (hne)
      · intro h hno
        simp only [step] at h
        split at h
        · simp at h
        · rename_i hne
          exact absurd h hne
    | read r =>
      have hkeep : ∀ t : SendState, t.phase = .fetching → step parse t (.read r) = t := by
        intro t ht
        simp only [step, ht]
      have hphase : (step parse s (.read r)).phase = .fetching → s.phase = .fetching := by
        intro h
        simp only [step] at h
        split at h
        · split at h <;> simp at h
          rename_i hr _ _ _
          rw [hr] at h
          cases h
        · exact h
      have harmed : (step parse s (.read r)).timerArmed = s.timerArmed := by
        simp only [step]
        split
        · split <;> rfl
        · rfl
      constructor
      · intro h
        rw [harmed] at h
        have hs := ih1 h
        rw [hs]
        exact hkeep _ rfl
      · intro h hno
        rw [harmed]
        apply ih2 (hphase h)
        intro hm
        exact hno (List.mem_append_left _ hm)

/-- C8 (as amended). The 60-second timer covers the wait for the response
only.  In every reachable state of a send: the timer is pending only while the
response is awaited, and then nothing has happened yet (the reply is empty and
streaming); while the response is awaited and the timer has not fired, it is
still pending; once the stream is being read it is no longer pending; and when
it fires it marks the reply failed with the timeout text, resets `loading` and
is spent. -/
theorem timer_covers_fetch_only (parse : Str → Option JsVal) (model : Str)
    (events : List Event) :
    ((runEvents parse (sendStart model) events).timerArmed = true →
        (runEvents parse (sendStart model) events).phase = .fetching ∧
          (runEvents parse (sendStart model) events).chat = initState model) ∧
      ((runEvents parse (sendStart model) events).phase = .fetching →
        Event.timerExpiry ∉ events →
        (runEvents parse (sendStart model) events).timerArmed = true) ∧
      ((runEvents parse (sendStart model) events).phase = .reading →
        (runEvents parse (sendStart model) events).timerArmed = false) ∧
      ((runEvents parse (sendStart model) events).timerArmed = true →
        (runEvents parse (sendStart model) (events ++ [.timerExpiry])).chat.aiMessage =
            { content := "**错误: 响应超时，请重试**".toList, isStreaming := false } ∧
          (runEvents parse (sendStart model) (events ++ [.timerExpiry])).chat.loading = false ∧
          (runEvents parse (sendStart model) (events ++ [.timerExpiry])).timerArmed = false) := by
  obtain ⟨h1, h2⟩ := timer_invariant parse model events
  refine ⟨?_, h2, ?_, ?_⟩
  · intro h
    rw [h1 h]
    exact ⟨rfl, rfl⟩
  · intro hp
    cases ha : (runEvents parse (sendStart model) events).timerArmed with
    | false => rfl
    | true =>
      rw [h1 ha] at hp
      cases hp
  · intro h
    rw [runEvents_snoc, h1 h]
    exact ⟨rfl, rfl, rfl⟩

/-- C8, the claim as written fails: once the response has arrived the reply is
streaming and the timer is no longer pending, so that its callback cannot run:
a timer event changes nothing. -/
theorem timer_cleared_while_streaming :
    (runEvents parseNothing (sendStart []) [.response true]).chat.aiMessage.isStreaming = true ∧
      (runEvents parseNothing (sendStart []) [.response true]).phase = .reading ∧
      (runEvents parseNothing (sendStart []) [.response true]).timerArmed = false ∧
      runEvents parseNothing (sendStart []) [.response true, .timerExpiry] =
        runEvents parseNothing (sendStart []) [.response true] := by
  decide

/-- C8, an instance: the timer fires before any other event. -/
theorem timer_covers_fetch_only_witness :
    (runEvents parseNothing (sendStart []) []).timerArmed = true ∧
      (runEvents parseNothing (sendStart []) ([] ++ [.timerExpiry])).chat.aiMessage =
        { content := "**错误: 响应超时，请重试**".toList, isStreaming := false } :=
  ⟨by decide, ((timer_covers_fetch_only parseNothing [] []).2.2.2 (by decide)).1⟩

/-! ## C10: the `data: ` marker -/

theorem stripData_marker (s : Str) : stripData ("data: ".toList ++ s) = s := by
  unfold stripData startsWith
  rw [List.isPrefixOf_iff_prefix.2 (List.prefix_append _ _)]
  rfl

theorem stripData_of_not_startsWith (s : Str) (h : startsWith s "data: ".toList = false) :
    stripData s = s := by
  unfold stripData
  rw [h]
  rfl

theorem frameOf_done (parse : Str → Option JsVal) :
    frameOf parse "data: [DONE]".toList = some .done := by
  have h1 : (trim "data: [DONE]".toList).isEmpty = false := by decide
  have h2 : trim (stripData "data: [DONE]".toList) = "[DONE]".toList := by decide
  unfold frameOf
  rw [h1, h2]
  simp

/-- C10 (as amended). For every payload `s` that is not blank and does not
itself start with `data: `, the line made of the marker `data: ` (with its
space) followed by `s` is decoded exactly as the line `s`: it is read as the
same frame and has the same effect on every state; and `data: [DONE]` is
decoded as the end marker. -/
theorem marker_stripping (parse : Str → Option JsVal) (st : ChatState) (s : Str)
    (hblank : (trim s).isEmpty = false) (hs : startsWith s "data: ".toList = false) :
    frameOf parse ("data: ".toList ++ s) = frameOf parse s ∧
      processLine parse st ("data: ".toList ++ s) = processLine parse st s ∧
      frameOf parse "data: [DONE]".toList = some .done ∧
      processLine parse st "data: [DONE]".toList = (onDone st, .ret) := by
  have h1 : (trim ("data: ".toList ++ s)).isEmpty = false :=
    trim_isEmpty_false _ 'd' (by simp) (by decide)
  refine ⟨?_, ?_, frameOf_done parse, processLine_done parse st⟩
  · unfold frameOf
    rw [h1, hblank, stripData_marker, stripData_of_not_startsWith s hs]
  · unfold processLine
    rw [h1, hblank, stripData_marker, stripData_of_not_startsWith s hs]

/-- C10, an instance: the payload `Hello`. -/
theorem marker_stripping_witness :
    (trim "Hello".toList).isEmpty = false ∧ startsWith "Hello".toList "data: ".toList = false ∧
      processLine parseNothing (initState []) ("data: ".toList ++ "Hello".toList) =
        processLine parseNothing (initState []) "Hello".toList :=
  ⟨by decide, by decide,
    (marker_stripping parseNothing (initState []) "Hello".toList (by decide) (by decide)).2.1⟩

/-- C10, the claim as written fails: without the space after the colon the
marker is not removed, so that `data:[DONE]` is read as content and not as the
end marker; the marker followed by a payload that starts with `data: ` is read
as that payload, which alone would lose its own marker; and the marker
followed by nothing is read as an empty content frame, while the empty line is
skipped. -/
theorem marker_without_space_kept :
    frameOf parseNothing "data:[DONE]".toList = some (.content "data:[DONE]".toList) ∧
      frameOf parseNothing "[DONE]".toList = some .done ∧
      frameOf parseNothing ("data: ".toList ++ "data: x".toList) =
        some (.content "data: x".toList) ∧
      frameOf parseNothing "data: x".toList = some (.content "x".toList) ∧
      frameOf parseNothing ("data: ".toList ++ []) = some (.content []) ∧
      frameOf parseNothing [] = none := by
  decide

/-! ## C11: plain-text payloads -/

theorem processLine_plain_trim (parse : Str → Option JsVal) (st : ChatState) (s : Str)
    (hp : isPlainText (trim s) = true) :
    processLine parse st ("data: ".toList ++ s) = (onContent st (trim s), .next) := by
  have h1 : (trim ("data: ".toList ++ s)).isEmpty = false :=
    trim_isEmpty_false _ 'd' (by simp) (by decide)
  simp only [isPlainText, Bool.and_eq_true, Bool.not_eq_true', bne_iff_ne, ne_eq] at hp
  obtain ⟨⟨hd, he⟩, hj⟩ := hp
  unfold processLine
  rw [h1, stripData_marker]
  simp only [Bool.false_eq_true, if_false]
  rw [if_neg hd, he]
  simp only [Bool.false_eq_true, if_false, contentOf, hj, chunkText]

/-- C11 (as amended). For every string `s` whose trimmed form is not the
terminal marker, does not start with `ERROR:` and is not JSON-shaped,
processing the frame `data: ` followed by `s` appends exactly the trimmed `s`
to the accumulated text (the white space at either end of `s` is dropped) and
goes on to the next frame; it appends exactly `s` when `s` has no white space
at either end. -/
theorem plain_text_appended_trimmed (parse : Str → Option JsVal) (st : ChatState) (s : Str)
    (hp : isPlainText (trim s) = true) :
    processLine parse st ("data: ".toList ++ s) = (onContent st (trim s), .next) ∧
      (processLine parse st ("data: ".toList ++ s)).1.fullResponse =
        st.fullResponse ++ trim s ∧
      (trim s = s →
        (processLine parse st ("data: ".toList ++ s)).1.fullResponse = st.fullResponse ++ s) := by
  have h := processLine_plain_trim parse st s hp
  refine ⟨h, by rw [h]; rfl, ?_⟩
  intro ht
  rw [h, ht]
  rfl

/-- C11, an instance: the payload ` , world ` loses the white space at its ends. -/
theorem plain_text_appended_trimmed_witness :
    isPlainText (trim " , world ".toList) = true ∧
      (processLine parseNothing (initState []) ("data: ".toList ++ " , world ".toList)).1.fullResponse =
        (initState []).fullResponse ++ ", world".toList :=
  ⟨by decide,
    (plain_text_appended_trimmed parseNothing (initState []) " , world ".toList (by decide)).2.1.trans
      (by decide)⟩

/-- C11, the claim as written fails: ` world` is not the terminal marker, does
not start with `ERROR:` and is not JSON-shaped, and the frame `data:  world`
appends `world`, without the leading space. -/
theorem plain_text_loses_white_space :
    " world".toList ≠ "[DONE]".toList ∧ startsWith " world".toList "ERROR:".toList = false ∧
      looksJson " world".toList = false ∧
      (processLine parseNothing (initState []) ("data: ".toList ++ " world".toList)).1.fullResponse =
        "world".toList := by
  decide

/-! ## C12: JSON-shaped content that does not parse -/

theorem startsWith_of_trim_isEmpty (s : Str) (h : (trim s).isEmpty = true) :
    startsWith s "data: ".toList = false := by
  rw [Bool.eq_false_iff]
  intro hs
  have hd : 'd' ∈ s := by
    unfold startsWith at hs
    rw [List.isPrefixOf_iff_prefix] at hs
    exact hs.subset (by decide)
  have := trim_isEmpty_false s 'd' hd (by decide)
  rw [this] at h
  cases h

/-- A line whose content (marker removed, trimmed) is not empty is not blank. -/
theorem trim_isEmpty_of_content (line : Str) (h : trim (stripData line) ≠ []) :
    (trim line).isEmpty = false := by
  rw [Bool.eq_false_iff]
  intro he
  apply h
  rw [stripData_of_not_startsWith line (startsWith_of_trim_isEmpty line he)]
  exact List.isEmpty_iff.1 he

theorem looksJson_ne_nil (d : Str) (h : looksJson d = true) : d ≠ [] := by
  intro hd
  subst hd
  revert h
  decide

theorem looksJson_head (d : Str) (h : looksJson d = true) :
    d.head? = some '\x7b' ∨ d.head? = some '"' := by
  cases d with
  | nil => exact absurd rfl (looksJson_ne_nil [] h)
  | cons c cs =>
    simp only [looksJson, startsWith, List.isPrefixOf, String.toList, Bool.or_eq_true,
      Bool.and_eq_true] at h
    rcases h with ⟨h1, -⟩ | ⟨h1, -⟩
    · left
      simp at h1
      subst h1
      rfl
    · right
      simp at h1
      subst h1
      rfl

theorem looksJson_not_done (d : Str) (h : looksJson d = true) : d ≠ "[DONE]".toList := by
  intro hd
  subst hd
  revert h
  decide

theorem looksJson_not_error (d : Str) (h : looksJson d = true) :
    startsWith d "ERROR:".toList = false := by
  rw [Bool.eq_false_iff]
  intro hs
  unfold startsWith at hs
  rw [List.isPrefixOf_iff_prefix] at hs
  obtain ⟨t, rfl⟩ := hs
  have e : ("ERROR:".toList ++ t).head? = some 'E' := rfl
  rcases looksJson_head _ h with h1 | h1 <;>
    · rw [e] at h1
      revert h1
      decide

/-- The loop body on a line whose content is JSON-shaped: neither the end
marker nor an error, so the content goes through `contentOf`. -/
theorem processLine_looksJson (parse : Str → Option JsVal) (st : ChatState) (line : Str)
    (hj : looksJson (trim (stripData line)) = true) :
    processLine parse st line =
      match contentOf parse (trim (stripData line)) with
      | none => (st, .next)
      | some v =>
        match chunkText v with
        | some contentChunk => (onContent st contentChunk, .next)
        | none => (st, .thrown) := by
  have h1 := trim_isEmpty_of_content line (looksJson_ne_nil _ hj)
  unfold processLine
  rw [h1]
  simp only [Bool.false_eq_true, if_false]
  rw [if_neg (looksJson_not_done _ hj), looksJson_not_error _ hj]
  simp only [Bool.false_eq_true, if_false]

/-- C12. For every line whose content (marker removed, trimmed) looks like
JSON but does not parse, the loop body appends that content as it is to the
accumulated text and to the message, leaves the message streaming flag and the
saves as they were, and goes on: the following lines are processed from that
state. -/
theorem decode_error_falls_back (parse : Str → Option JsVal) (st : ChatState) (line : Str)
    (rest : List Str)
    (hj : looksJson (trim (stripData line)) = true)
    (hp : parse (trim (stripData line)) = none) :
    processLine parse st line = (onContent st (trim (stripData line)), .next) ∧
      (processLine parse st line).1.fullResponse = st.fullResponse ++ trim (stripData line) ∧
      (processLine parse st line).1.aiMessage.isStreaming = st.aiMessage.isStreaming ∧
      (processLine parse st line).1.saves = st.saves ∧
      processLines parse st (line :: rest) =
        processLines parse (onContent st (trim (stripData line))) rest := by
  have h : processLine parse st line = (onContent st (trim (stripData line)), .next) := by
    rw [processLine_looksJson parse st line hj]
    simp only [contentOf, hj, hp, if_true, chunkText]
  refine ⟨h, by rw [h]; rfl, by rw [h]; rfl, by rw [h]; rfl, ?_⟩
  rw [processLines, h]

/-- C12, an instance: a line that opens a brace, closes it and is not JSON,
followed by a plain line. -/
theorem decode_error_falls_back_witness :
    looksJson (trim (stripData "data: \x7bnot json\x7d".toList)) = true ∧
      (processLines parseNothing (initState [])
        ["data: \x7bnot json\x7d".toList, "data: ok".toList]).1.fullResponse =
        "\x7bnot json\x7dok".toList :=
  ⟨by decide,
    (congrArg (fun r => r.1.fullResponse)
      (decode_error_falls_back parseNothing (initState []) "data: \x7bnot json\x7d".toList
        ["data: ok".toList] (by decide) rfl).2.2.2.2).trans (by decide)⟩

/-! ## C13: provider envelopes -/

theorem truthy_of_get (x : JsVal) (key : Str) (h : (x.get key).truthy = true) :
    x.truthy = true := by
  cases x <;> first | rfl | (simp [JsVal.get, JsVal.truthy] at h)

theorem and_truthy_get (x : JsVal) (key : Str) :
    (x.truthy && (x.get key).truthy) = (x.get key).truthy := by
  cases h : (x.get key).truthy with
  | false => simp
  | true => simp [truthy_of_get x key h]

theorem any_typeIs (v : JsVal) (ty : Str) (ht : v.get "type".toList = .str ty)
    (hm : ty ∈ metadataTypes) : metadataTypes.any v.typeIs = true := by
  rw [List.any_eq_true]
  refine ⟨ty, hm, ?_⟩
  unfold JsVal.typeIs
  rw [ht]
  simp

/-- The value of `contentChunk` for a parsed object that carries one of the six
metadata types. -/
theorem contentOf_envelope (parse : Str → Option JsVal) (d : Str) (fields : List (Str × JsVal))
    (ty : Str) (hj : looksJson d = true) (hp : parse d = some (.obj fields))
    (ht : (JsVal.obj fields).get "type".toList = .str ty) (hm : ty ∈ metadataTypes) :
    contentOf parse d =
      if (((JsVal.obj fields).get "content_block".toList).get "text".toList).truthy then
        some (((JsVal.obj fields).get "content_block".toList).get "text".toList)
      else if (((JsVal.obj fields).get "delta".toList).get "text".toList).truthy then
        some (((JsVal.obj fields).get "delta".toList).get "text".toList)
      else none := by
  unfold contentOf
  rw [if_pos hj, hp]
  simp only [JsVal.isObjectType, any_typeIs _ ty ht hm, Bool.and_self, if_true, and_truthy_get]

/-- C13. For every line whose content parses to a JSON object whose `type` is
one of the six metadata types: when `content_block.text` is a non-empty string,
that string is appended and the loop goes on; otherwise, when `content_block.text`
is absent or falsy and `delta.text` is a non-empty string, that string is
appended and the loop goes on; when neither text is truthy the state, and so
the accumulated text, is unchanged and the loop goes on.  The first two parts
say what happens to any truthy value found in these fields, a string or not:
`content_block.text` is taken first, `delta.text` otherwise, and the value goes
through lines 765-768, which append its conversion to a string, or throw when
`String` cannot convert it. -/
theorem envelope_decoding (parse : Str → Option JsVal) (st : ChatState) (line : Str)
    (fields : List (Str × JsVal)) (ty : Str)
    (hj : looksJson (trim (stripData line)) = true)
    (hp : parse (trim (stripData line)) = some (.obj fields))
    (ht : (JsVal.obj fields).get "type".toList = .str ty) (hm : ty ∈ metadataTypes) :
    ((((JsVal.obj fields).get "content_block".toList).get "text".toList).truthy = true →
        processLine parse st line =
          match chunkText (((JsVal.obj fields).get "content_block".toList).get "text".toList) with
          | some contentChunk => (onContent st contentChunk, .next)
          | none => (st, .thrown)) ∧
      ((((JsVal.obj fields).get "content_block".toList).get "text".toList).truthy = false →
        (((JsVal.obj fields).get "delta".toList).get "text".toList).truthy = true →
        processLine parse st line =
          match chunkText (((JsVal.obj fields).get "delta".toList).get "text".toList) with
          | some contentChunk => (onContent st contentChunk, .next)
          | none => (st, .thrown)) ∧
      ((((JsVal.obj fields).get "content_block".toList).get "text".toList).truthy = false →
        (((JsVal.obj fields).get "delta".toList).get "text".toList).truthy = false →
        processLine parse st line = (st, .next)) ∧
      (∀ t, ((JsVal.obj fields).get "content_block".toList).get "text".toList = .str t →
        t ≠ [] →
        processLine parse st line = (onContent st t, .next) ∧
          (processLine parse st line).1.fullResponse = st.fullResponse ++ t) ∧
      (∀ t, (((JsVal.obj fields).get "content_block".toList).get "text".toList).truthy = false →
        ((JsVal.obj fields).get "delta".toList).get "text".toList = .str t →
        t ≠ [] →
        processLine parse st line = (onContent st t, .next) ∧
          (processLine parse st line).1.fullResponse = st.fullResponse ++ t) := by
  have h := processLine_looksJson parse st line hj
  rw [contentOf_envelope parse _ fields ty hj hp ht hm] at h
  refine ⟨?_, ?_, ?_, ?_, ?_⟩
  · intro h1
    rw [h, if_pos h1]
  · intro h1 h2
    rw [h, h1, if_pos h2]
    simp
  · intro h1 h2
    rw [h, h1, h2]
    simp
  · intro t h1 hne
    have htr : (((JsVal.obj fields).get "content_block".toList).get "text".toList).truthy =
        true := by
      rw [h1]
      cases t with
      | nil => exact absurd rfl hne
      | cons c cs => rfl
    rw [h, if_pos htr, h1]
    exact ⟨rfl, rfl⟩
  · intro t h1 h2 hne
    have htr : (((JsVal.obj fields).get "delta".toList).get "text".toList).truthy = true := by
      rw [h2]
      cases t with
      | nil => exact absurd rfl hne
      | cons c cs => rfl
    rw [h, h1, if_pos htr, h2]
    exact ⟨rfl, rfl⟩

/-- C13, the instance of the specification: the frame `{"type":"ping"}` leaves
the state unchanged. -/
theorem envelope_decoding_witness :
    processLine
        (parseTable [("\x7b\"type\":\"ping\"\x7d".toList, .obj [("type".toList, .str "ping".toList)])])
        (initState []) "data: \x7b\"type\":\"ping\"\x7d".toList =
      (initState [], .next) :=
  (envelope_decoding
    (parseTable [("\x7b\"type\":\"ping\"\x7d".toList, .obj [("type".toList, .str "ping".toList)])])
    (initState []) "data: \x7b\"type\":\"ping\"\x7d".toList
    [("type".toList, .str "ping".toList)] "ping".toList (by decide) (by rfl) (by rfl)
    (by decide)).2.2.1 (by rfl) (by rfl)

/-- An envelope whose text cannot be made a string: after the frame `Hi`, the
envelope `{"type":"content_block_delta","delta":{"text":{"toString":1}}}`.  Its
`delta.text` is present and truthy and becomes `contentChunk`; it is not a
string, and `String(contentChunk)` at line 767, outside the `try` block, throws
on it.  Nothing is appended, the loop is left by the error, and the handler of
lines 789-803 marks the whole reply as failed; the frame `more` that follows is
never read. -/
theorem envelope_text_conversion_throws :
    processLine
        (parseTable [("\x7b\"type\":\"content_block_delta\",\"delta\":\x7b\"text\":\x7b\"toString\":1\x7d\x7d\x7d".toList,
          .obj [("type".toList, .str "content_block_delta".toList),
            ("delta".toList, .obj [("text".toList, .obj [("toString".toList, .num "1".toList)])])])])
        (onContent (initState []) "Hi".toList)
        "data: \x7b\"type\":\"content_block_delta\",\"delta\":\x7b\"text\":\x7b\"toString\":1\x7d\x7d\x7d".toList =
      (onContent (initState []) "Hi".toList, .thrown) ∧
      runStream
        (parseTable [("\x7b\"type\":\"content_block_delta\",\"delta\":\x7b\"text\":\x7b\"toString\":1\x7d\x7d\x7d".toList,
          .obj [("type".toList, .str "content_block_delta".toList),
            ("delta".toList, .obj [("text".toList, .obj [("toString".toList, .num "1".toList)])])])])
        (initState [])
        [.value "data: Hi\n\ndata: \x7b\"type\":\"content_block_delta\",\"delta\":\x7b\"text\":\x7b\"toString\":1\x7d\x7d\x7d\n\ndata: more\n\n".toList] =
      ({ initState [] with
          fullResponse := "Hi".toList
          aiMessage := { content := "**错误: 处理响应流时出错**".toList, isStreaming := false }
          notices := [Notice.error "处理响应流时出错".toList]
          loading := false },
        .failed) := by
  decide

/-! ## C14: objects that are not envelopes -/

/-- C14, the code at the failing input: the frame `{"foo":1}` parses to an
object without a metadata type; `String(contentChunk)` turns the object into
`[object Object]`, and that is what is appended, not the raw content. -/
theorem plain_object_appended_as_object_Object :
    processLine
        (parseTable [("\x7b\"foo\":1\x7d".toList, .obj [("foo".toList, .num "1".toList)])])
        (initState []) "data: \x7b\"foo\":1\x7d".toList =
      (onContent (initState []) "[object Object]".toList, .next) := by
  decide

/-! ## C15: fatal error frames -/

theorem startsWith_error_ne_nil (d : Str) (h : startsWith d "ERROR:".toList = true) : d ≠ [] := by
  intro hd
  subst hd
  revert h
  decide

theorem startsWith_error_not_done (d : Str) (h : startsWith d "ERROR:".toList = true) :
    d ≠ "[DONE]".toList := by
  intro hd
  subst hd
  revert h
  decide

/-- The loop body on a line whose content starts with `ERROR:`. -/
theorem processLine_error (parse : Str → Option JsVal) (st : ChatState) (line : Str)
    (he : startsWith (trim (stripData line)) "ERROR:".toList = true) :
    processLine parse st line =
      match fallbackOf (trim ((trim (stripData line)).drop 6)) with
      | some fallbackModel => (onFallback st fallbackModel, .next)
      | none => (onFatal st (trim ((trim (stripData line)).drop 6)), .ret) := by
  have h1 := trim_isEmpty_of_content line (startsWith_error_ne_nil _ he)
  unfold processLine
  rw [h1]
  simp only [Bool.false_eq_true, if_false]
  rw [if_neg (startsWith_error_not_done _ he), he]
  simp only [if_true]

/-- C15. For every line whose content starts with `ERROR:` and whose message
(the trimmed remainder after the marker) is not a model-fallback notice: the
message is set to `**错误: <message>**` (with the default text when the message
is empty) and is no longer streaming, `loading` is reset, an error toast is
shown, the loop returns (the lines after it are not processed), the accumulated
text is unchanged and no save is scheduled. -/
theorem fatal_error_frame (parse : Str → Option JsVal) (st : ChatState) (line : Str)
    (rest : List Str)
    (he : startsWith (trim (stripData line)) "ERROR:".toList = true)
    (hf : fallbackOf (trim ((trim (stripData line)).drop 6)) = none) :
    processLine parse st line = (onFatal st (trim ((trim (stripData line)).drop 6)), .ret) ∧
      (processLine parse st line).1.aiMessage =
        { content := "**错误: ".toList ++
            (if (trim ((trim (stripData line)).drop 6)).isEmpty then "获取AI响应失败".toList
             else trim ((trim (stripData line)).drop 6)) ++ "**".toList
          isStreaming := false } ∧
      (processLine parse st line).1.fullResponse = st.fullResponse ∧
      (processLine parse st line).1.saves = st.saves ∧
      (processLine parse st line).1.loading = false ∧
      processLines parse st (line :: rest) =
        (onFatal st (trim ((trim (stripData line)).drop 6)), .ret) := by
  have h : processLine parse st line =
      (onFatal st (trim ((trim (stripData line)).drop 6)), .ret) := by
    rw [processLine_error parse st line he, hf]
  refine ⟨h, by rw [h]; rfl, by rw [h]; rfl, by rw [h]; rfl, by rw [h]; rfl, ?_⟩
  rw [processLines, h]

/-- C15, an instance: the frame `ERROR: boom` followed by a frame that is not
processed. -/
theorem fatal_error_frame_witness :
    startsWith (trim (stripData "data: ERROR: boom".toList)) "ERROR:".toList = true ∧
      processLines parseNothing (initState []) ["data: ERROR: boom".toList, "data: late".toList] =
        ({ initState [] with
            aiMessage := { content := "**错误: boom**".toList, isStreaming := false }
            notices := [Notice.error "AI响应错误: boom".toList]
            loading := false },
          .ret) :=
  ⟨by decide,
    ((fatal_error_frame parseNothing (initState []) "data: ERROR: boom".toList
      ["data: late".toList] (by decide) (by decide)).2.2.2.2.2).trans (by decide)⟩

/-! ## C16: the fallback notice -/

theorem includes_of_isPrefixOf (s p : Str) (h : p.isPrefixOf s = true) : includes s p = true := by
  cases s with
  | nil =>
    cases p with
    | nil => rfl
    | cons c cs => simp [List.isPrefixOf] at h
  | cons c cs => simp [includes, h]

/-- The lazy group stops at the end of a name that has neither the stop text
nor a line terminator in it. -/
theorem lazyUntil_name (n : Str) (hc : includes n "代替".toList = false)
    (hl : ∀ c ∈ n, isLineTerminator c = false) :
    lazyUntil "代替".toList (n ++ "代替".toList) = some n := by
  induction n with
  | nil => rfl
  | cons c cs ih =>
    rw [includes_eq_false_cons] at hc
    have hpre : List.isPrefixOf "代替".toList (c :: cs ++ "代替".toList) = false := by
      cases cs with
      | nil =>
        have e : "代替".toList = ['代', '替'] := rfl
        rw [e]
        simp [List.isPrefixOf]
      | cons d ds =>
        have h1 := hc.1
        have e : "代替".toList = ['代', '替'] := rfl
        rw [e] at h1 ⊢
        simpa [List.isPrefixOf] using h1
    have e2 : c :: cs ++ "代替".toList = c :: (cs ++ "代替".toList) := rfl
    rw [e2] at hpre ⊢
    rw [lazyUntil, hpre, hl c (List.mem_cons_self _ _),
      ih hc.2 (fun x hx => hl x (List.mem_cons_of_mem _ hx))]
    rfl

theorem matchFallback_skip (c : Char) (cs : Str) (h : c ≠ '使') :
    matchFallback (c :: cs) = matchFallback cs := by
  have e : "使用".toList = ['使', '用'] := rfl
  rw [matchFallback, e]
  have : List.isPrefixOf ['使', '用'] (c :: cs) = false := by
    simp [List.isPrefixOf, Ne.symm h]
  rw [this]
  rfl

theorem matchFallback_notice (n : Str) (hc : includes n "代替".toList = false)
    (hl : ∀ c ∈ n, isLineTerminator c = false) :
    matchFallback (fallbackNotice n) = some n := by
  have e : fallbackNotice n =
      'C' :: 'l' :: 'a' :: 'u' :: 'd' :: 'e' :: '模' :: '型' :: '不' :: '可' :: '用' :: '，' ::
        '使' :: '用' :: (n ++ "代替".toList) := rfl
  rw [e]
  iterate 12 rw [matchFallback_skip _ _ (by decide)]
  rw [matchFallback]
  have hp : List.isPrefixOf "使用".toList ('使' :: '用' :: (n ++ "代替".toList)) = true := by
    rw [List.isPrefixOf_iff_prefix]
    exact ⟨n ++ "代替".toList, rfl⟩
  rw [hp]
  simp only [if_true, List.drop]
  rw [lazyUntil_name n hc hl]

theorem fallbackOf_notice (n : Str) (hn : n ≠ []) (hc : includes n "代替".toList = false)
    (hl : ∀ c ∈ n, isLineTerminator c = false) :
    fallbackOf (fallbackNotice n) = some n := by
  have hi : includes (fallbackNotice n) "Claude模型不可用".toList = true := by
    apply includes_of_isPrefixOf
    rw [List.isPrefixOf_iff_prefix]
    exact ⟨"，使用".toList ++ n ++ "代替".toList, rfl⟩
  unfold fallbackOf
  rw [hi, matchFallback_notice n hc hl]
  cases n with
  | nil => exact absurd rfl hn
  | cons c cs => rfl

/-- C16 (as amended). For every non-empty model name `n` that contains neither
`代替` nor a line terminator, a line whose content starts with `ERROR:` and whose
message is `Claude模型不可用，使用n代替` sets `currentChatModel` and `selectedModel`
to exactly `n`, shows the warning, leaves the message (still streaming) and the
accumulated text unchanged, and the loop goes on with the next line. -/
theorem fallback_extraction (parse : Str → Option JsVal) (st : ChatState) (line : Str)
    (rest : List Str) (n : Str)
    (hn : n ≠ []) (hc : includes n "代替".toList = false)
    (hl : ∀ c ∈ n, isLineTerminator c = false)
    (he : startsWith (trim (stripData line)) "ERROR:".toList = true)
    (hm : trim ((trim (stripData line)).drop 6) = fallbackNotice n) :
    processLine parse st line = (onFallback st n, .next) ∧
      (processLine parse st line).1.currentChatModel = n ∧
      (processLine parse st line).1.selectedModel = n ∧
      (processLine parse st line).1.aiMessage = st.aiMessage ∧
      (processLine parse st line).1.fullResponse = st.fullResponse ∧
      (processLine parse st line).1.saves = st.saves ∧
      processLines parse st (line :: rest) = processLines parse (onFallback st n) rest := by
  have h : processLine parse st line = (onFallback st n, .next) := by
    rw [processLine_error parse st line he, hm, fallbackOf_notice n hn hc hl]
  refine ⟨h, by rw [h]; rfl, by rw [h]; rfl, by rw [h]; rfl, by rw [h]; rfl, by rw [h]; rfl, ?_⟩
  rw [processLines, h]

/-- C16, the instance of the specification: the model name `gpt-4o`. -/
theorem fallback_extraction_witness :
    trim ((trim (stripData "data: ERROR: Claude模型不可用，使用gpt-4o代替".toList)).drop 6) =
        fallbackNotice "gpt-4o".toList ∧
      (processLine parseNothing (initState "claude".toList)
        "data: ERROR: Claude模型不可用，使用gpt-4o代替".toList).1.selectedModel = "gpt-4o".toList ∧
      (processLine parseNothing (initState "claude".toList)
        "data: ERROR: Claude模型不可用，使用gpt-4o代替".toList).1.aiMessage =
        (initState "claude".toList).aiMessage :=
  ⟨by decide,
    (fallback_extraction parseNothing (initState "claude".toList)
      "data: ERROR: Claude模型不可用，使用gpt-4o代替".toList [] "gpt-4o".toList (by decide)
      (by decide) (by decide) (by decide) (by decide)).2.2.1,
    (fallback_extraction parseNothing (initState "claude".toList)
      "data: ERROR: Claude模型不可用，使用gpt-4o代替".toList [] "gpt-4o".toList (by decide)
      (by decide) (by decide) (by decide) (by decide)).2.2.2.1⟩

/-- C16, the claim as written fails: the name `a\nb` is not empty and does not
contain `代替`, but the group `(.*?)` does not cross the newline, the pattern
does not match, and the frame is a fatal error. -/
theorem fallback_name_with_newline_is_fatal :
    "a\nb".toList ≠ [] ∧ includes "a\nb".toList "代替".toList = false ∧
      trim ((trim (stripData ("data: ERROR: ".toList ++ fallbackNotice "a\nb".toList))).drop 6) =
        fallbackNotice "a\nb".toList ∧
      processLine parseNothing (initState "claude".toList)
          ("data: ERROR: ".toList ++ fallbackNotice "a\nb".toList) =
        (onFatal (initState "claude".toList) (fallbackNotice "a\nb".toList), .ret) := by
  decide

/-! ## C18: the bounded retry of the save -/

theorem saveWithRetry_ok (ok : Nat → Bool) (retryCount : Nat) (log : SaveLog)
    (h : ok log.attempts = true) :
    saveWithRetry ok retryCount log = { log with attempts := log.attempts + 1, saved := true } := by
  rw [saveWithRetry, if_pos h]

theorem saveWithRetry_retry (ok : Nat → Bool) (retryCount : Nat) (log : SaveLog)
    (h : ok log.attempts = false) (hr : retryCount < maxRetries - 1) :
    saveWithRetry ok retryCount log =
      saveWithRetry ok (retryCount + 1)
        { log with
          attempts := log.attempts + 1
          delays := log.delays ++ [500 * 2 ^ (retryCount + 1)] } := by
  rw [saveWithRetry, h, if_pos hr]
  simp

theorem saveWithRetry_last (ok : Nat → Bool) (retryCount : Nat) (log : SaveLog)
    (h : ok log.attempts = false) (hr : ¬ retryCount < maxRetries - 1) :
    saveWithRetry ok retryCount log =
      { log with
        attempts := log.attempts + 1
        notices := log.notices ++ [Notice.error "保存AI回复失败，但不影响当前对话".toList]
        threw := true } := by
  rw [saveWithRetry, h, if_neg hr]
  simp

/-- The four courses of a call of `saveAIMessage` with a chat id and a content. -/
theorem saveAIMessage_cases (chatId content : Str) (ok : Nat → Bool)
    (hc : chatId ≠ []) (hx : content ≠ []) :
    saveAIMessage chatId content ok =
      if ok 0 then
        { attempts := 1, delays := [], saved := true, notices := [], threw := false }
      else if ok 1 then
        { attempts := 2, delays := [1000], saved := true, notices := [], threw := false }
      else if ok 2 then
        { attempts := 3, delays := [1000, 2000], saved := true, notices := [], threw := false }
      else
        { attempts := 3, delays := [1000, 2000], saved := false,
          notices := [Notice.error "保存AI回复失败，但不影响当前对话".toList,
            Notice.error "无法保存AI回复，但不影响当前对话".toList],
          threw := false } := by
  have hg : (chatId.isEmpty || content.isEmpty) = false := by
    cases chatId with
    | nil => exact absurd rfl hc
    | cons a as =>
      cases content with
      | nil => exact absurd rfl hx
      | cons b bs => rfl
  unfold saveAIMessage
  rw [hg]
  simp only [Bool.false_eq_true, if_false]
  cases h0 : ok 0 with
  | true =>
    rw [saveWithRetry_ok ok 0 SaveLog.empty h0]
    rfl
  | false =>
    rw [saveWithRetry_retry ok 0 SaveLog.empty h0 (by decide)]
    cases h1 : ok 1 with
    | true =>
      rw [saveWithRetry_ok ok 1 _ h1]
      rfl
    | false =>
      rw [saveWithRetry_retry ok 1 _ h1 (by decide)]
      cases h2 : ok 2 with
      | true =>
        rw [saveWithRetry_ok ok 2 _ h2]
        rfl
      | false =>
        rw [saveWithRetry_last ok 2 _ h2 (by decide)]
        rfl

/-- C18. For a call of `saveAIMessage` with a chat id and a content, and for
every sequence of outcomes of the requests: the number of requests sent is
`min k 3` where `k` is the position of the first request that succeeds, and 3
when none of the first three succeeds; the save is reported successful exactly
when one of the first three requests succeeds; when all three fail both error
toasts are shown; and in every case the call returns without throwing. -/
theorem bounded_retry (chatId content : Str) (ok : Nat → Bool)
    (hc : chatId ≠ []) (hx : content ≠ []) :
    (∀ j, ok j = true → (∀ i, i < j → ok i = false) →
        (saveAIMessage chatId content ok).attempts = min (j + 1) 3) ∧
      ((∀ i, i < 3 → ok i = false) →
        (saveAIMessage chatId content ok).attempts = 3 ∧
          (saveAIMessage chatId content ok).saved = false ∧
          (saveAIMessage chatId content ok).notices =
            [Notice.error "保存AI回复失败，但不影响当前对话".toList,
              Notice.error "无法保存AI回复，但不影响当前对话".toList]) ∧
      ((saveAIMessage chatId content ok).saved = true ↔ ∃ i, i < 3 ∧ ok i = true) ∧
      (saveAIMessage chatId content ok).threw = false := by
  rw [saveAIMessage_cases chatId content ok hc hx]
  refine ⟨?_, ?_, ?_, ?_⟩
  · intro j hj hfirst
    match j, hj, hfirst with
    | 0, hj, _ => simp [hj]
    | 1, hj, hfirst => simp [hj, hfirst 0 (by omega)]
    | 2, hj, hfirst => simp [hj, hfirst 0 (by omega), hfirst 1 (by omega)]
    | j + 3, _, hfirst =>
      have h0 := hfirst 0 (by omega)
      have h1 := hfirst 1 (by omega)
      have h2 := hfirst 2 (by omega)
      simp [h0, h1, h2]
  · intro h
    simp [h 0 (by omega), h 1 (by omega), h 2 (by omega)]
  · constructor
    · intro h
      cases h0 : ok 0 with
      | true => exact ⟨0, by omega, h0⟩
      | false =>
        cases h1 : ok 1 with
        | true => exact ⟨1, by omega, h1⟩
        | false =>
          cases h2 : ok 2 with
          | true => exact ⟨2, by omega, h2⟩
          | false => simp [h0, h1, h2] at h
    · rintro ⟨i, hi, hok⟩
      match i, hi, hok with
      | 0, _, hok => simp [hok]
      | 1, _, hok => cases h0 : ok 0 <;> simp [hok]
      | 2, _, hok => cases h0 : ok 0 <;> cases h1 : ok 1 <;> simp [hok]
  · cases h0 : ok 0 <;> cases h1 : ok 1 <;> cases h2 : ok 2 <;> simp

/-- C18, the scenario of the specification: two failures and then a success
give exactly three requests and a reported success. -/
theorem bounded_retry_witness :
    outcomesOf [false, false, true] 2 = true ∧
      (saveAIMessage "chat".toList "Hello".toList (outcomesOf [false, false, true])).attempts = 3 ∧
      (saveAIMessage "chat".toList "Hello".toList (outcomesOf [false, false, true])).saved = true :=
  ⟨by decide,
    (bounded_retry "chat".toList "Hello".toList (outcomesOf [false, false, true]) (by decide)
      (by decide)).1 2 (by decide) (by decide),
    (bounded_retry "chat".toList "Hello".toList (outcomesOf [false, false, true]) (by decide)
      (by decide)).2.2.1.2 ⟨2, by decide, by decide⟩⟩

/-! ## C19: the delays between the requests -/

/-- C19 (as amended). For a call of `saveAIMessage` with a chat id and a
content, the delay before the i-th retry (i = 1, 2) is `500 * 2 ^ i`
milliseconds: 1000 ms before the first retry and the double, 2000 ms, before
the second; there is one delay per retry. -/
theorem backoff_schedule (chatId content : Str) (ok : Nat → Bool)
    (hc : chatId ≠ []) (hx : content ≠ []) :
    (saveAIMessage chatId content ok).delays.length =
        (saveAIMessage chatId content ok).attempts - 1 ∧
      (∀ i, 1 ≤ i → i < (saveAIMessage chatId content ok).attempts →
        (saveAIMessage chatId content ok).delays[i - 1]? = some (500 * 2 ^ i)) := by
  rw [saveAIMessage_cases chatId content ok hc hx]
  cases h0 : ok 0 <;> cases h1 : ok 1 <;> cases h2 : ok 2 <;>
    · simp only [Bool.false_eq_true, if_false, if_true]
      refine ⟨rfl, ?_⟩
      intro i hi1 hi2
      have hi3 : i < 3 := lt_of_lt_of_le hi2 (by decide)
      interval_cases i <;> rfl

/-- C19, an instance: three failures. -/
theorem backoff_schedule_witness :
    (saveAIMessage "chat".toList "Hello".toList (outcomesOf [])).delays.length =
      (saveAIMessage "chat".toList "Hello".toList (outcomesOf [])).attempts - 1 :=
  (backoff_schedule "chat".toList "Hello".toList (outcomesOf []) (by decide) (by decide)).1

/-- C19, the claim as written fails: when every request fails, the delays are
1000 ms and 2000 ms, while `500 * 2 ^ (i - 1)` gives 500 ms and 1000 ms. -/
theorem backoff_starts_at_1000 :
    (saveAIMessage "chat".toList "Hello".toList (outcomesOf [])).delays = [1000, 2000] ∧
      500 * 2 ^ (1 - 1) = 500 ∧ 500 * 2 ^ (2 - 1) = 1000 := by
  rw [saveAIMessage_cases _ _ _ (by decide) (by decide)]
  decide

/-! ## C17: when the reply is handed to the save -/

theorem ne_nil_of_trim (s : Str) (h : (trim s).isEmpty = false) : s ≠ [] := by
  intro hs
  subst hs
  revert h
  decide

/-- C17 (as amended). When the loop body runs on a `[DONE]` line, the call
`saveAIMessage(chatId, fullResponse)` is scheduled if and only if the
accumulated text is not blank (it has a character that is not white space), and
it is scheduled with exactly the accumulated text; the call then passes the
guard of `saveAIMessage` and sends a request. -/
theorem save_handoff (parse : Str → Option JsVal) (st : ChatState) (line : Str)
    (hd : trim (stripData line) = "[DONE]".toList) :
    processLine parse st line = (onDone st, .ret) ∧
      ((trim st.fullResponse).isEmpty = false →
        (processLine parse st line).1.saves = st.saves ++ [st.fullResponse]) ∧
      ((trim st.fullResponse).isEmpty = true →
        (processLine parse st line).1.saves = st.saves) ∧
      (∀ chatId ok, chatId ≠ [] → (trim st.fullResponse).isEmpty = false →
        1 ≤ (saveAIMessage chatId st.fullResponse ok).attempts) := by
  have h1 := trim_isEmpty_of_content line (by rw [hd]; decide)
  have h : processLine parse st line = (onDone st, .ret) := by
    unfold processLine
    rw [h1, hd]
    simp
  refine ⟨h, ?_, ?_, ?_⟩
  · intro hb
    rw [h]
    simp [onDone, hb]
  · intro hb
    rw [h]
    simp [onDone, hb]
  · intro chatId ok hc hb
    rw [saveAIMessage_cases chatId st.fullResponse ok hc (ne_nil_of_trim _ hb)]
    cases ok 0 <;> cases ok 1 <;> cases ok 2 <;> simp

/-- C17, an instance: the text `Hi` is handed to the save. -/
theorem save_handoff_witness :
    trim (stripData "data: [DONE]".toList) = "[DONE]".toList ∧
      (trim (onContent (initState []) "Hi".toList).fullResponse).isEmpty = false ∧
      (processLine parseNothing (onContent (initState []) "Hi".toList)
        "data: [DONE]".toList).1.saves = ["Hi".toList] :=
  ⟨by decide, by decide,
    ((save_handoff parseNothing (onContent (initState []) "Hi".toList) "data: [DONE]".toList
      (by decide)).2.1 (by decide)).trans (by decide)⟩

/-- C17, the claim as written fails: the frame `" "` (a JSON string) makes the
accumulated text one space, which is not empty, and the `[DONE]` frame after it
schedules no save. -/
theorem blank_text_not_saved :
    (processLines (parseTable [("\" \"".toList, .str " ".toList)]) (initState [])
        ["data: \" \"".toList, "data: [DONE]".toList]).1.fullResponse = " ".toList ∧
      (processLines (parseTable [("\" \"".toList, .str " ".toList)]) (initState [])
        ["data: \" \"".toList, "data: [DONE]".toList]).1.saves = [] ∧
      (processLines (parseTable [("\" \"".toList, .str " ".toList)]) (initState [])
        ["data: \" \"".toList, "data: [DONE]".toList]).2 = .ret := by
  decide

/-! ## C20: no cancellation -/

theorem step_over (parse : Str → Option JsVal) (s : SendState) (e : Event)
    (hp : s.phase = .over) (ht : s.timerArmed = false) : step parse s e = s := by
  cases e <;> simp [step, hp, ht]

theorem runEvents_over (parse : Str → Option JsVal) (s : SendState) (events : List Event)
    (hp : s.phase = .over) (ht : s.timerArmed = false) : runEvents parse s events = s := by
  induction events with
  | nil => rfl
  | cons e es ih =>
    unfold runEvents at ih ⊢
    rw [List.foldl_cons, step_over parse s e hp ht]
    exact ih

/-- While the stream is read the timer is no longer pending: line 628 clears
it as soon as `fetch` has resolved. -/
theorem timer_cleared_of_reading (parse : Str → Option JsVal) (model : Str)
    (events : List Event)
    (hr : (runEvents parse (sendStart model) events).phase = .reading) :
    (runEvents parse (sendStart model) events).timerArmed = false := by
  cases h : (runEvents parse (sendStart model) events).timerArmed with
  | false => rfl
  | true =>
    rw [(timer_invariant parse model events).1 h] at hr
    cases hr

/-- While the stream is read, an event that is not a read of the stream finds
no callback that still reacts to it. -/
theorem step_reading_other (parse : Str → Option JsVal) (s : SendState) (e : Event)
    (hp : s.phase = .reading) (ht : s.timerArmed = false) (he : ∀ r, e ≠ .read r) :
    step parse s e = s := by
  cases e with
  | timerExpiry => simp [step, ht]
  | response ok => simp [step, hp]
  | fetchError => simp [step, hp]
  | read r => exact absurd rfl (he r)

/-- A read that rejects while the stream is read goes to the handler of lines
789-803. -/
theorem step_read_fail (parse : Str → Option JsVal) (s : SendState)
    (hp : s.phase = .reading) :
    step parse s (.read .fail) = { s with chat := onStreamError s.chat, phase := .over } := by
  simp only [step, hp]
  rfl

/-- C20 (as amended). A send has no cancellation signal.  While a reply is
being read, the events that the code handles other than the reads of the
stream (the expiry of the timer, a response, a rejection of `fetch`) change
nothing; the reply leaves this phase only through a read of the stream, and
only a chunk read from the stream can schedule a save.  From outside the
in-flight read ends only by failing: a failed read moves the reply to the
failed terminal state (the message becomes the stream-error text and is no
longer streaming, an error toast is shown, `loading` is reset) with the
accumulated text and the scheduled saves unchanged, and after it every event,
a second failure included, changes nothing. -/
theorem no_cancellation_event (parse : Str → Option JsVal) (model : Str)
    (events more : List Event)
    (hr : (runEvents parse (sendStart model) events).phase = .reading) :
    (∀ e, (∀ r, e ≠ .read r) →
        step parse (runEvents parse (sendStart model) events) e =
          runEvents parse (sendStart model) events) ∧
      (∀ e, (step parse (runEvents parse (sendStart model) events) e).phase = .over →
        ∃ r, e = .read r) ∧
      (∀ e, (∀ chunk, e ≠ .read (.value chunk)) →
        (step parse (runEvents parse (sendStart model) events) e).chat.saves =
          (runEvents parse (sendStart model) events).chat.saves) ∧
      step parse (runEvents parse (sendStart model) events) (.read .fail) =
        { runEvents parse (sendStart model) events with
          chat := onStreamError (runEvents parse (sendStart model) events).chat
          phase := .over } ∧
      (step parse (runEvents parse (sendStart model) events) (.read .fail)).chat.aiMessage =
        { content := "**错误: 处理响应流时出错**".toList, isStreaming := false } ∧
      (step parse (runEvents parse (sendStart model) events) (.read .fail)).chat.notices =
        (runEvents parse (sendStart model) events).chat.notices ++
          [Notice.error "处理响应流时出错".toList] ∧
      (step parse (runEvents parse (sendStart model) events) (.read .fail)).chat.loading = false ∧
      (step parse (runEvents parse (sendStart model) events) (.read .fail)).chat.fullResponse =
        (runEvents parse (sendStart model) events).chat.fullResponse ∧
      runEvents parse (step parse (runEvents parse (sendStart model) events) (.read .fail)) more =
        step parse (runEvents parse (sendStart model) events) (.read .fail) := by
  have ht := timer_cleared_of_reading parse model events hr
  generalize runEvents parse (sendStart model) events = s at hr ht ⊢
  have hf := step_read_fail parse s hr
  refine ⟨fun e he => step_reading_other parse s e hr ht he, ?_, ?_, hf, ?_, ?_, ?_, ?_, ?_⟩
  · intro e ho
    cases e with
    | read r => exact ⟨r, rfl⟩
    | timerExpiry =>
      rw [step_reading_other parse s _ hr ht (fun r h => by cases h), hr] at ho
      cases ho
    | response ok =>
      rw [step_reading_other parse s _ hr ht (fun r h => by cases h), hr] at ho
      cases ho
    | fetchError =>
      rw [step_reading_other parse s _ hr ht (fun r h => by cases h), hr] at ho
      cases ho
  · intro e he
    cases e with
    | read r =>
      cases r with
      | value chunk => exact absurd rfl (he chunk)
      | done =>
        simp only [step, hr]
        rfl
      | fail =>
        rw [hf]
        rfl
    | timerExpiry => rw [step_reading_other parse s _ hr ht (fun r h => by cases h)]
    | response ok => rw [step_reading_other parse s _ hr ht (fun r h => by cases h)]
    | fetchError => rw [step_reading_other parse s _ hr ht (fun r h => by cases h)]
  · rw [hf]
    rfl
  · rw [hf]
    rfl
  · rw [hf]
    rfl
  · rw [hf]
    rfl
  · rw [hf]
    exact runEvents_over parse _ more rfl ht

/-- C20, an instance: the reply `Hi` is streaming, the read fails, and then a
second failure and a late timer expiry arrive. -/
theorem no_cancellation_event_witness :
    (runEvents parseNothing (sendStart [])
        [.response true, .read (.value "data: Hi\n\n".toList)]).phase = .reading ∧
      runEvents parseNothing (sendStart [])
          [.response true, .read (.value "data: Hi\n\n".toList), .read .fail, .read .fail,
            .timerExpiry] =
        runEvents parseNothing (sendStart [])
          [.response true, .read (.value "data: Hi\n\n".toList), .read .fail] :=
  ⟨by decide,
    (no_cancellation_event parseNothing [] [.response true, .read (.value "data: Hi\n\n".toList)]
      [.read .fail, .timerExpiry] (by decide)).2.2.2.2.2.2.2.2⟩

/-- C20, the claim as written fails: while the reply `Hi` is streaming there
is no event that cancels it.  Of the events that the code handles, none but a
read of the stream changes anything: the read stays in flight and the message
stays marked as streaming. -/
theorem no_event_cancels_streaming_reply :
    (runEvents parseNothing (sendStart [])
        [.response true, .read (.value "data: Hi\n\n".toList)]).chat.aiMessage =
        { content := "Hi".toList, isStreaming := true } ∧
      (runEvents parseNothing (sendStart [])
        [.response true, .read (.value "data: Hi\n\n".toList)]).phase = .reading ∧
      ¬ ∃ e : Event, (∀ r, e ≠ .read r) ∧
        step parseNothing (runEvents parseNothing (sendStart [])
          [.response true, .read (.value "data: Hi\n\n".toList)]) e ≠
        runEvents parseNothing (sendStart [])
          [.response true, .read (.value "data: Hi\n\n".toList)] := by
  refine ⟨by decide, by decide, ?_⟩
  rintro ⟨e, he, hne⟩
  apply hne
  exact step_reading_other parseNothing _ e (by decide) (by decide) he

/-! ## C21: responses that are not OK -/

/-- C21, the code at the failing input: a response with status 500 whose body
is the text `Failed to fetch`.  The error made at lines 59-62 carries the
status 500, but it is thrown inside the `try` block and the `catch` block
replaces it, because of its message, by the network error of status 0. -/
theorem non_ok_status_lost :
    request "http://localhost:8080/api/chat/history".toList
        { token := some "t".toList, username := some "u".toList, location := "/chat".toList }
        (.response
          { status := 500
            statusText := "Internal Server Error".toList
            body := "Failed to fetch".toList
            jsonError := none }) =
      ({ token := some "t".toList, username := some "u".toList, location := "/chat".toList },
        .rejected
          { name := "Error".toList, message := "网络错误，请检查连接".toList, status := some 0 }) := by
  decide

/-! ## C22: a 401 outside the login request -/

/-- C22 (as amended). For every URL that does not contain `/api/login`, a 401
response removes the auth token from local storage, sets the location to
`/login`, and the call rejects (with the error `请先登录`). -/
theorem unauthorized_elsewhere (url : Str) (b : Browser) (r : Response)
    (h401 : r.status = 401) (hurl : includes url "/api/login".toList = false) :
    (request url b (.response r)).1.token = none ∧
      (request url b (.response r)).1.location = "/login".toList ∧
      (request url b (.response r)).2 = .rejected (newError "请先登录".toList) := by
  have h : request url b (.response r) =
      ({ b with token := none, location := "/login".toList },
        .rejected (onCatch (newError "请先登录".toList))) := by
    simp only [request, h401, hurl, if_true, Bool.false_eq_true, if_false]
  have hc : onCatch (newError "请先登录".toList) = newError "请先登录".toList := by decide
  rw [h, hc]
  exact ⟨rfl, rfl, rfl⟩

/-- C22, an instance: a 401 on the chat history. -/
theorem unauthorized_elsewhere_witness :
    includes "http://localhost:8080/api/chat/history".toList "/api/login".toList = false ∧
      (request "http://localhost:8080/api/chat/history".toList
        { token := some "t".toList, username := some "u".toList, location := "/chat".toList }
        (.response { status := 401, statusText := [], body := [], jsonError := none })).1.token =
        none :=
  ⟨by decide,
    (unauthorized_elsewhere "http://localhost:8080/api/chat/history".toList
      { token := some "t".toList, username := some "u".toList, location := "/chat".toList }
      { status := 401, statusText := [], body := [], jsonError := none } rfl (by decide)).1⟩

/-- C22, the claim as written fails.  A URL that is not the login endpoint but
contains `/api/login` takes the branch of the login request: nothing is
cleared and the location is unchanged.  And on any other URL only the token is
removed: the display name stays in local storage, while `fetchWithAuth`
removes both. -/
theorem unauthorized_keeps_credentials :
    isLoginEndpoint "http://localhost:8080/api/login-history".toList = false ∧
      (request "http://localhost:8080/api/login-history".toList
        { token := some "t".toList, username := some "u".toList, location := "/chat".toList }
        (.response { status := 401, statusText := [], body := [], jsonError := none })).1 =
        { token := some "t".toList, username := some "u".toList, location := "/chat".toList } ∧
      (request "http://localhost:8080/api/chat/history".toList
        { token := some "t".toList, username := some "u".toList, location := "/chat".toList }
        (.response { status := 401, statusText := [], body := [], jsonError := none })).1.username =
        some "u".toList ∧
      (fetchWithAuth
        { token := some "t".toList, username := some "u".toList, location := "/chat".toList }
        { status := 401, statusText := [], body := [], jsonError := none }).1.username = none := by
  decide

/-! ## C23: a 401 on the login request -/

theorem includes_cons_of_includes (c : Char) (s p : Str) (h : includes s p = true) :
    includes (c :: s) p = true := by
  simp [includes, h]

theorem includes_append_left (pre s p : Str) (h : includes s p = true) :
    includes (pre ++ s) p = true := by
  induction pre with
  | nil => exact h
  | cons c cs ih => exact includes_cons_of_includes c _ p ih

theorem includes_of_endsWith (s p : Str) (h : endsWith s p = true) : includes s p = true := by
  unfold endsWith at h
  rw [List.isSuffixOf_iff_suffix] at h
  obtain ⟨pre, rfl⟩ := h
  apply includes_append_left
  apply includes_of_isPrefixOf
  rw [List.isPrefixOf_iff_prefix]

/-- C23 (as amended). A 401 response to a request whose URL contains
`/api/login`, which every request to the login endpoint does, rejects with the
error `Invalid email or password` carrying status 401 and leaves local storage
and the location unchanged; this branch is taken exactly for the URLs that
contain `/api/login`: on every other URL the call rejects with another error. -/
theorem unauthorized_login (url : Str) (b : Browser) (r : Response) (h401 : r.status = 401) :
    (includes url "/api/login".toList = true →
        request url b (.response r) =
          (b, .rejected { name := "Error".toList, message := "Invalid email or password".toList,
                          status := some 401 })) ∧
      (isLoginEndpoint url = true → includes url "/api/login".toList = true) ∧
      (includes url "/api/login".toList = false →
        (request url b (.response r)).2 = .rejected (newError "请先登录".toList)) := by
  have hc : onCatch { newError "Invalid email or password".toList with status := some 401 } =
      { name := "Error".toList, message := "Invalid email or password".toList,
        status := some 401 } := by decide
  refine ⟨?_, fun h => includes_of_endsWith url _ h, ?_⟩
  · intro hurl
    simp only [request, h401, hurl, if_true]
    rw [hc]
  · intro hurl
    have hc2 : onCatch (newError "请先登录".toList) = newError "请先登录".toList := by decide
    simp only [request, h401, hurl, if_true, Bool.false_eq_true, if_false]
    rw [hc2]

/-- C23, an instance: the login request of the login page. -/
theorem unauthorized_login_witness :
    isLoginEndpoint "http://localhost:8080/api/login".toList = true ∧
      request "http://localhost:8080/api/login".toList
        { token := none, username := none, location := "/login".toList }
        (.response { status := 401, statusText := [], body := [], jsonError := none }) =
        ({ token := none, username := none, location := "/login".toList },
          .rejected { name := "Error".toList, message := "Invalid email or password".toList,
                      status := some 401 }) :=
  ⟨by decide,
    (unauthorized_login "http://localhost:8080/api/login".toList
      { token := none, username := none, location := "/login".toList }
      { status := 401, statusText := [], body := [], jsonError := none } rfl).1 (by decide)⟩

/-- C23, the claim as written fails: the URL `.../api/login/status` is not a
request to the login endpoint, and a 401 on it takes the branch of the login
request, the stored token staying in place. -/
theorem login_branch_on_other_url :
    isLoginEndpoint "http://localhost:8080/api/login/status".toList = false ∧
      request "http://localhost:8080/api/login/status".toList
        { token := some "t".toList, username := some "u".toList, location := "/chat".toList }
        (.response { status := 401, statusText := [], body := [], jsonError := none }) =
        ({ token := some "t".toList, username := some "u".toList, location := "/chat".toList },
          .rejected { name := "Error".toList, message := "Invalid email or password".toList,
                      status := some 401 }) := by
  decide

/-! ## C24: errors of the transport -/

/-- C24. When `fetch` rejects, the call rejects with what the `catch` block
makes of the error, local storage and location unchanged: for an error named
`AbortError`, the timeout error of status 408; otherwise, for a message that
contains `NetworkError` or `Failed to fetch`, the network error of status 0;
otherwise the error itself, unchanged. -/
theorem transport_errors (url : Str) (b : Browser) (e : JsError) :
    request url b (.error e) = (b, .rejected (onCatch e)) ∧
      (e.name = "AbortError".toList →
        onCatch e =
          { name := "Error".toList, message := "请求超时，请重试".toList, status := some 408 }) ∧
      (e.name ≠ "AbortError".toList →
        (includes e.message "NetworkError".toList = true ∨
          includes e.message "Failed to fetch".toList = true) →
        onCatch e =
          { name := "Error".toList, message := "网络错误，请检查连接".toList, status := some 0 }) ∧
      (e.name ≠ "AbortError".toList →
        includes e.message "NetworkError".toList = false →
        includes e.message "Failed to fetch".toList = false →
        onCatch e = e) := by
  refine ⟨rfl, ?_, ?_, ?_⟩
  · intro h
    unfold onCatch
    rw [if_pos h]
    rfl
  · intro h hm
    unfold onCatch
    rw [if_neg h]
    have : (includes e.message "NetworkError".toList ||
        includes e.message "Failed to fetch".toList) = true := by
      rcases hm with hm | hm
      · rw [hm, Bool.true_or]
      · rw [hm, Bool.or_true]
    rw [if_pos this]
    rfl
  · intro h h1 h2
    unfold onCatch
    rw [if_neg h, h1, h2]
    rfl

/-- C24, an instance: the rejection `TypeError: Failed to fetch`. -/
theorem transport_errors_witness :
    ("TypeError".toList ≠ "AbortError".toList) ∧
      onCatch { name := "TypeError".toList, message := "Failed to fetch".toList, status := none } =
        { name := "Error".toList, message := "网络错误，请检查连接".toList, status := some 0 } :=
  ⟨by decide,
    (transport_errors [] { token := none, username := none, location := [] }
      { name := "TypeError".toList, message := "Failed to fetch".toList, status := none }).2.2.1
      (by decide) (Or.inr (by decide))⟩

/-! ## C25: the token check of the login page -/

theorem checkTokenExpiration_of_token (decode : Str → Option JsVal)
    (toNumber : JsVal → Option Int) (now : Int) (b : Browser) (token : Str)
    (ht : b.token = some token) (hne : token ≠ []) :
    checkTokenExpiration decode toNumber now b =
      match readExp decode token with
      | none => clearCredentials b
      | some exp =>
        if isAfter (expMillis toNumber exp) now then { b with location := "/chat".toList }
        else clearCredentials b := by
  have he : token.isEmpty = false := by
    cases token with
    | nil => exact absurd rfl hne
    | cons c cs => rfl
  unfold checkTokenExpiration
  rw [ht]
  simp only [he, Bool.false_eq_true, if_false]

/-- C25. For every stored (non-empty) token: when its second dot-separated
segment decodes to a payload whose `exp`, times 1000, is strictly greater than
the current time, token and username are kept and the location becomes
`/chat`; when `exp` times 1000 is at most the current time, when `exp` is not a
number, or when the token cannot be decoded, both token and username are
removed and the location is unchanged; with no stored token nothing changes. -/
theorem token_expiry_login (decode : Str → Option JsVal) (toNumber : JsVal → Option Int)
    (now : Int) (b : Browser) :
    (∀ token exp n, b.token = some token → token ≠ [] → readExp decode token = some exp →
        toNumber exp = some n → n * 1000 > now →
        checkTokenExpiration decode toNumber now b = { b with location := "/chat".toList }) ∧
      (∀ token exp n, b.token = some token → token ≠ [] → readExp decode token = some exp →
        toNumber exp = some n → n * 1000 ≤ now →
        checkTokenExpiration decode toNumber now b = clearCredentials b) ∧
      (∀ token exp, b.token = some token → token ≠ [] → readExp decode token = some exp →
        toNumber exp = none →
        checkTokenExpiration decode toNumber now b = clearCredentials b) ∧
      (∀ token, b.token = some token → token ≠ [] → readExp decode token = none →
        checkTokenExpiration decode toNumber now b = clearCredentials b) ∧
      (b.token = none ∨ b.token = some [] → checkTokenExpiration decode toNumber now b = b) := by
  refine ⟨?_, ?_, ?_, ?_, ?_⟩
  · intro token exp n ht hne hr hn hgt
    rw [checkTokenExpiration_of_token decode toNumber now b token ht hne, hr]
    simp [expMillis, hn, isAfter, hgt]
  · intro token exp n ht hne hr hn hle
    rw [checkTokenExpiration_of_token decode toNumber now b token ht hne, hr]
    simp [expMillis, hn, isAfter, not_lt.2 hle]
  · intro token exp ht hne hr hn
    rw [checkTokenExpiration_of_token decode toNumber now b token ht hne, hr]
    simp [expMillis, hn, isAfter]
  · intro token ht hne hr
    rw [checkTokenExpiration_of_token decode toNumber now b token ht hne, hr]
  · intro h
    unfold checkTokenExpiration
    rcases h with h | h
    · rw [h]
    · rw [h]
      rfl

/-- C25, an instance: a token whose payload has `exp` 2000 (seconds), checked
at the time 1999999 (milliseconds). -/
theorem token_expiry_login_witness :
    readExp (parseTable [("p".toList, .obj [("exp".toList, .num "2000".toList)])])
        "h.p.s".toList = some (.num "2000".toList) ∧
      checkTokenExpiration (parseTable [("p".toList, .obj [("exp".toList, .num "2000".toList)])])
        intNumber 1999999
        { token := some "h.p.s".toList, username := some "u".toList, location := "/login".toList } =
        { token := some "h.p.s".toList, username := some "u".toList, location := "/chat".toList } :=
  ⟨by rfl,
    (token_expiry_login (parseTable [("p".toList, .obj [("exp".toList, .num "2000".toList)])])
      intNumber 1999999
      { token := some "h.p.s".toList, username := some "u".toList, location := "/login".toList }).1
      "h.p.s".toList (.num "2000".toList) 2000 rfl (by decide) (by rfl) (by decide) (by decide)⟩

/-! ## C28: the two token checks -/

/-- C28, the code at the failing input: a token whose payload is the object
`{}`, without `exp`.  `exp * 1000` is `NaN` and both comparisons are false:
the login page removes token and username, while the home page keeps them and
does not redirect to the login view. -/
theorem token_without_exp_disagree :
    checkTokenExpiration (parseTable [("e30".toList, .obj [])]) intNumber 1700000000000
        { token := some "h.e30.s".toList, username := some "u".toList, location := "/rag".toList } =
        { token := none, username := none, location := "/rag".toList } ∧
      checkAuth (parseTable [("e30".toList, .obj [])]) intNumber 1700000000000
        { token := some "h.e30.s".toList, username := some "u".toList, location := "/rag".toList } =
        { token := some "h.e30.s".toList, username := some "u".toList, location := "/rag".toList } := by
  decide

/-! ## C26: the checks before an upload -/

/-- C26. The upload request is sent, with the selected file, if and only if a
file is selected, it is of a supported format and its size is at most
`50 * 1024 * 1024` bytes; in every other case an error is set and no request is
sent. -/
theorem upload_validation (selectedFile : Option UploadFile) :
    (∀ file, handleUpload selectedFile = .requestSent file ↔
        selectedFile = some file ∧ supportedFormat file ∧ file.size ≤ 50 * 1024 * 1024) ∧
      ((¬ ∃ file, selectedFile = some file ∧ supportedFormat file ∧
          file.size ≤ 50 * 1024 * 1024) →
        ∃ e, handleUpload selectedFile = .errorSet e) := by
  have key : ∀ f : UploadFile,
      (!validTypes.contains f.type &&
        !(endsWith f.name ".pdf".toList || endsWith f.name ".txt".toList ||
          endsWith f.name ".docx".toList || endsWith f.name ".md".toList)) = true ↔
        ¬ supportedFormat f := by
    intro f
    unfold supportedFormat
    have hA : validTypes.contains f.type = true ↔ f.type ∈ validTypes := by simp
    rw [← hA]
    generalize validTypes.contains f.type = a
    generalize endsWith f.name ".pdf".toList = b1
    generalize endsWith f.name ".txt".toList = b2
    generalize endsWith f.name ".docx".toList = b3
    generalize endsWith f.name ".md".toList = b4
    cases a <;> cases b1 <;> cases b2 <;> cases b3 <;> cases b4 <;> simp
  have hmax : maxSize = 50 * 1024 * 1024 := rfl
  cases selectedFile with
  | none =>
    refine ⟨fun file => ?_, fun _ => ⟨.noFile, rfl⟩⟩
    simp [handleUpload]
  | some f =>
    by_cases hs : supportedFormat f
    · have hk : (!validTypes.contains f.type &&
          !(endsWith f.name ".pdf".toList || endsWith f.name ".txt".toList ||
            endsWith f.name ".docx".toList || endsWith f.name ".md".toList)) = false := by
        rw [Bool.eq_false_iff, Ne, key]
        exact not_not.2 hs
      by_cases hz : f.size > maxSize
      · have e : handleUpload (some f) = .errorSet (.tooLarge f.size) := by
          simp only [handleUpload, hk, hz, Bool.false_eq_true, if_false, if_true]
        refine ⟨fun file => ?_, fun _ => ⟨_, e⟩⟩
        rw [e]
        constructor
        · intro h
          cases h
        · rintro ⟨h1, -, h3⟩
          cases h1
          rw [hmax] at hz
          omega
      · have e : handleUpload (some f) = .requestSent f := by
          simp only [handleUpload, hk, hz, Bool.false_eq_true, if_false]
        refine ⟨fun file => ?_, fun hno => ?_⟩
        · rw [e]
          constructor
          · intro h
            cases h
            exact ⟨rfl, hs, by rw [hmax] at hz; omega⟩
          · rintro ⟨h1, -, -⟩
            cases h1
            rfl
        · exact absurd ⟨f, rfl, hs, by rw [hmax] at hz; omega⟩ hno
    · have hk := (key f).2 hs
      have e : handleUpload (some f) = .errorSet .invalidType := by
        simp only [handleUpload, hk, if_true]
      refine ⟨fun file => ?_, fun _ => ⟨_, e⟩⟩
      rw [e]
      constructor
      · intro h
        cases h
      · rintro ⟨h1, h2, -⟩
        cases h1
        exact absurd h2 hs

/-- C26, an instance: a PDF recognised by its name, 10 bytes long. -/
theorem upload_validation_witness :
    handleUpload (some { name := "doc.pdf".toList, type := [], size := 10 }) =
      .requestSent { name := "doc.pdf".toList, type := [], size := 10 } :=
  ((upload_validation (some { name := "doc.pdf".toList, type := [], size := 10 })).1
    { name := "doc.pdf".toList, type := [], size := 10 }).2
    ⟨rfl, Or.inr (Or.inl (by decide)), by decide⟩

/-! ## C30: the guards of `handleSend` -/

/-- C30. When the input is empty or only white space, or when `loading` is
set, `handleSend` does not reach the part after its guards, whatever that part
does: the current chat, the number of requests issued and the input text are
unchanged (with `loading` set and a non-blank input, an info toast is shown). -/
theorem handleSend_guards (rest : ComposeState → ComposeState) (s : ComposeState)
    (h : (trim s.inputMessage).isEmpty = true ∨ s.loading = true) :
    (handleSend rest s).currentChat = s.currentChat ∧
      (handleSend rest s).requests = s.requests ∧
      (handleSend rest s).inputMessage = s.inputMessage ∧
      (handleSend rest s).loading = s.loading := by
  unfold handleSend
  by_cases hb : (trim s.inputMessage).isEmpty = true
  · rw [if_pos hb]
    exact ⟨rfl, rfl, rfl, rfl⟩
  · rw [if_neg hb]
    rcases h with h | h
    · exact absurd h hb
    · rw [if_pos h]
      exact ⟨rfl, rfl, rfl, rfl⟩

/-- C30, an instance: an input of two spaces, with a rest that would append a
message, send a request and clear the input. -/
theorem handleSend_guards_witness :
    (trim "  ".toList).isEmpty = true ∧
      (handleSend
        (fun s => { s with
          inputMessage := []
          currentChat := s.currentChat ++ [{ content := s.inputMessage, isStreaming := false }]
          requests := s.requests + 1 })
        { inputMessage := "  ".toList, loading := false, currentChat := [], requests := 0,
          infos := [] }).inputMessage = "  ".toList :=
  ⟨by decide,
    (handleSend_guards
      (fun s => { s with
        inputMessage := []
        currentChat := s.currentChat ++ [{ content := s.inputMessage, isStreaming := false }]
        requests := s.requests + 1 })
      { inputMessage := "  ".toList, loading := false, currentChat := [], requests := 0,
        infos := [] } (Or.inl (by decide))).2.2.1⟩

/-! ## C29: what is left in the buffer when the stream ends -/

theorem takeLines_no_separator (st : ChatState) (t : Str)
    (h : includes (st.buffer ++ t) sepNN = false) :
    takeLines st t = ({ st with buffer := st.buffer ++ t }, []) := by
  unfold takeLines
  rw [splitNN_of_not_includes _ h]
  rfl

theorem ingest_no_separator (parse : Str → Option JsVal) (st : ChatState) (t : Str)
    (h : includes (st.buffer ++ t) sepNN = false) :
    ingest parse st t = ({ st with buffer := st.buffer ++ t }, .next) := by
  unfold ingest
  rw [takeLines_no_separator st t h]
  rfl

theorem processStream_values_done (parse : Str → Option JsVal) (st : ChatState)
    (cs : List Str) (rest : List ReadResult)
    (hp : (processStream parse st (cs.map .value)).2 = .pending) :
    processStream parse st (cs.map .value ++ .done :: rest) =
        ({ (processStream parse st (cs.map .value)).1 with loading := false }, .ended) ∧
      traceStream parse st (cs.map .value ++ .done :: rest) =
        traceStream parse st (cs.map .value) := by
  induction cs generalizing st with
  | nil => exact ⟨rfl, rfl⟩
  | cons c cs ih =>
    simp only [List.map_cons, List.cons_append, processStream, traceStream] at hp ⊢
    cases h : ingest parse st c with
    | mk s f =>
      rw [h] at hp
      cases f with
      | ret => simp at hp
      | thrown => simp at hp
      | next =>
        simp only at hp ⊢
        obtain ⟨h1, h2⟩ := ih s hp
        exact ⟨h1,
          congrArg (fun x => traceLines parse (takeLines st c).1 (takeLines st c).2 ++ x) h2⟩

/-- C29. When the stream ends while the loop is waiting for a read, the text
left in the buffer is not decoded: the end of the stream only resets `loading`
and the loop body runs on no further line, so that the accumulated text, the
message and the saves are those reached before.  In particular a last chunk
that, with the buffer, holds no double newline (a final `data: ...` or
`data: [DONE]` without the separator) only goes to the buffer. -/
theorem trailing_data_ignored (parse : Str → Option JsVal) (st : ChatState)
    (cs : List Str) (t : Str) (rest : List ReadResult) :
    ((processStream parse st (cs.map .value)).2 = .pending →
        processStream parse st (cs.map .value ++ .done :: rest) =
            ({ (processStream parse st (cs.map .value)).1 with loading := false }, .ended) ∧
          traceStream parse st (cs.map .value ++ .done :: rest) =
            traceStream parse st (cs.map .value)) ∧
      (includes (st.buffer ++ t) sepNN = false →
        processStream parse st (.value t :: .done :: rest) =
            ({ st with buffer := st.buffer ++ t, loading := false }, .ended) ∧
          traceStream parse st (.value t :: .done :: rest) = []) := by
  refine ⟨processStream_values_done parse st cs rest, ?_⟩
  intro h
  have hi := ingest_no_separator parse st t h
  have ht := takeLines_no_separator st t h
  constructor
  · rw [processStream, hi]
    rfl
  · rw [traceStream, hi, ht]
    rfl

/-- C29, an instance: after `Hi`, the stream ends on `data: [DONE]` without the
separator: the reply keeps the text `Hi`, is still marked as streaming and
nothing is saved. -/
theorem trailing_data_ignored_witness :
    includes ((onContent (initState []) "Hi".toList).buffer ++ "data: [DONE]".toList) sepNN =
        false ∧
      processStream parseNothing (onContent (initState []) "Hi".toList)
          [.value "data: [DONE]".toList, .done] =
        ({ onContent (initState []) "Hi".toList with
            buffer := "data: [DONE]".toList, loading := false }, .ended) :=
  ⟨by decide,
    ((trailing_data_ignored parseNothing (onContent (initState []) "Hi".toList) []
      "data: [DONE]".toList []).2 (by decide)).1⟩

/-! ## C27: which error messages are fallback notices -/

/-- What the lazy group has matched: the text after it starts with the stop
text, the group has no line terminator and does not contain the stop text. -/
theorem lazyUntil_spec (s g : Str) (h : lazyUntil "代替".toList s = some g) :
    (∃ r, s = g ++ "代替".toList ++ r) ∧ (∀ c ∈ g, isLineTerminator c = false) ∧
      includes g "代替".toList = false := by
  induction s generalizing g with
  | nil =>
    have : lazyUntil "代替".toList [] = none := rfl
    rw [this] at h
    cases h
  | cons c cs ih =>
    rw [lazyUntil] at h
    by_cases hp : List.isPrefixOf "代替".toList (c :: cs) = true
    · rw [if_pos hp] at h
      cases h
      rw [List.isPrefixOf_iff_prefix] at hp
      obtain ⟨r, hr⟩ := hp
      exact ⟨⟨r, by rw [← hr]; rfl⟩, by simp, rfl⟩
    · rw [if_neg hp] at h
      by_cases hl : isLineTerminator c = true
      · rw [if_pos hl] at h
        cases h
      · rw [if_neg hl] at h
        cases hg : lazyUntil "代替".toList cs with
        | none => rw [hg] at h; cases h
        | some g' =>
          rw [hg] at h
          simp only [Option.map_some', Option.some.injEq] at h
          subst h
          obtain ⟨⟨r, hr⟩, h2, h3⟩ := ih g' hg
          refine ⟨⟨r, by rw [hr]; rfl⟩, ?_, ?_⟩
          · intro x hx
            rcases List.mem_cons.1 hx with rfl | hx
            · simpa using hl
            · exact h2 x hx
          · rw [includes_eq_false_cons]
            refine ⟨?_, h3⟩
            rw [Bool.eq_false_iff]
            intro hq
            apply hp
            rw [List.isPrefixOf_iff_prefix] at hq ⊢
            refine hq.trans ?_
            rw [hr]
            exact ⟨"代替".toList ++ r, by simp⟩

/-- What the pattern has matched: the message holds `使用`, the group, `代替`
in a row. -/
theorem matchFallback_spec (m g : Str) (h : matchFallback m = some g) :
    (∃ pre r, m = pre ++ "使用".toList ++ g ++ "代替".toList ++ r) ∧
      (∀ c ∈ g, isLineTerminator c = false) ∧ includes g "代替".toList = false := by
  induction m with
  | nil =>
    have : matchFallback [] = none := rfl
    rw [this] at h
    cases h
  | cons c cs ih =>
    rw [matchFallback] at h
    by_cases hp : List.isPrefixOf "使用".toList (c :: cs) = true
    · rw [if_pos hp] at h
      cases hg : lazyUntil "代替".toList ((c :: cs).drop 2) with
      | some g' =>
        rw [hg] at h
        simp only [Option.some.injEq] at h
        subst h
        obtain ⟨⟨r, hr⟩, h2, h3⟩ := lazyUntil_spec _ _ hg
        rw [List.isPrefixOf_iff_prefix] at hp
        obtain ⟨t, ht⟩ := hp
        have hd : (c :: cs).drop 2 = t := by
          rw [← ht]
          rfl
        rw [hd] at hr
        refine ⟨⟨[], r, ?_⟩, h2, h3⟩
        rw [← ht, hr]
        simp
      | none =>
        rw [hg] at h
        obtain ⟨⟨pre, r, hr⟩, h2, h3⟩ := ih h
        exact ⟨⟨c :: pre, r, by rw [hr]; simp⟩, h2, h3⟩
    · rw [if_neg hp] at h
      obtain ⟨⟨pre, r, hr⟩, h2, h3⟩ := ih h
      exact ⟨⟨c :: pre, r, by rw [hr]; simp⟩, h2, h3⟩

theorem includes_middle (pre x r : Str) : includes (pre ++ x ++ r) x = true := by
  rw [List.append_assoc]
  apply includes_append_left
  apply includes_of_isPrefixOf
  rw [List.isPrefixOf_iff_prefix]
  exact List.prefix_append _ _

theorem fallbackOf_spec (m g : Str) (h : fallbackOf m = some g) :
    (includes m "Claude模型不可用".toList = true ∨ includes m "using gpt-".toList = true) ∧
      g ≠ [] ∧ includes m ("使用".toList ++ g ++ "代替".toList) = true ∧
      (∀ c ∈ g, isLineTerminator c = false) ∧ includes g "代替".toList = false := by
  unfold fallbackOf at h
  by_cases hc : (includes m "Claude模型不可用".toList || includes m "using gpt-".toList) = true
  · rw [if_pos hc] at h
    cases hm : matchFallback m with
    | none => rw [hm] at h; cases h
    | some g' =>
      rw [hm] at h
      by_cases he : g'.isEmpty = true
      · simp [he] at h
      · simp only [he, Bool.false_eq_true, if_false, Option.some.injEq] at h
        subst h
        obtain ⟨⟨pre, r, hr⟩, h2, h3⟩ := matchFallback_spec m g' hm
        refine ⟨by simpa using hc, ?_, ?_, h2, h3⟩
        · intro hn
          subst hn
          exact he rfl
        · rw [hr]
          have := includes_middle pre ("使用".toList ++ g' ++ "代替".toList) r
          simpa [List.append_assoc] using this
  · rw [if_neg hc] at h
    cases h

theorem lazyUntil_name_post (n post : Str) (hc : includes n "代替".toList = false)
    (hl : ∀ c ∈ n, isLineTerminator c = false) :
    lazyUntil "代替".toList (n ++ "代替".toList ++ post) = some n := by
  induction n with
  | nil =>
    have e : ([] : Str) ++ "代替".toList ++ post = '代' :: '替' :: post := rfl
    have hp : List.isPrefixOf "代替".toList ('代' :: '替' :: post) = true := by
      rw [List.isPrefixOf_iff_prefix]
      exact ⟨post, rfl⟩
    rw [e, lazyUntil, if_pos hp]
  | cons c cs ih =>
    rw [includes_eq_false_cons] at hc
    have e2 : c :: cs ++ "代替".toList ++ post = c :: (cs ++ "代替".toList ++ post) := rfl
    have hpre : List.isPrefixOf "代替".toList (c :: (cs ++ "代替".toList ++ post)) = false := by
      cases cs with
      | nil =>
        have e : "代替".toList = ['代', '替'] := rfl
        rw [e]
        simp [List.isPrefixOf]
      | cons d ds =>
        have h1 := hc.1
        have e : "代替".toList = ['代', '替'] := rfl
        rw [e] at h1 ⊢
        simpa [List.isPrefixOf] using h1
    rw [e2, lazyUntil, hpre, hl c (List.mem_cons_self _ _),
      ih hc.2 (fun x hx => hl x (List.mem_cons_of_mem _ hx))]
    rfl

theorem matchFallback_of_not_isPrefixOf (c : Char) (cs : Str)
    (h : List.isPrefixOf "使用".toList (c :: cs) = false) :
    matchFallback (c :: cs) = matchFallback cs := by
  rw [matchFallback, h]
  rfl

/-- The pattern skips a text in which `使用` does not occur. -/
theorem matchFallback_skip_pre (pre rest : Str) (h : includes pre "使用".toList = false) :
    matchFallback (pre ++ '使' :: rest) = matchFallback ('使' :: rest) := by
  induction pre with
  | nil => rfl
  | cons c cs ih =>
    rw [includes_eq_false_cons] at h
    have e2 : c :: cs ++ '使' :: rest = c :: (cs ++ '使' :: rest) := rfl
    have hpre : List.isPrefixOf "使用".toList (c :: (cs ++ '使' :: rest)) = false := by
      cases cs with
      | nil =>
        have e : "使用".toList = ['使', '用'] := rfl
        rw [e]
        simp [List.isPrefixOf]
      | cons d ds =>
        have h1 := h.1
        have e : "使用".toList = ['使', '用'] := rfl
        rw [e] at h1 ⊢
        simpa [List.isPrefixOf] using h1
    rw [e2, matchFallback_of_not_isPrefixOf _ _ hpre, ih h.2]

theorem matchFallback_first (pre g post : Str) (hpre : includes pre "使用".toList = false)
    (hc : includes g "代替".toList = false) (hl : ∀ c ∈ g, isLineTerminator c = false) :
    matchFallback (pre ++ "使用".toList ++ g ++ "代替".toList ++ post) = some g := by
  have e : pre ++ "使用".toList ++ g ++ "代替".toList ++ post =
      pre ++ '使' :: '用' :: (g ++ "代替".toList ++ post) := by
    have : "使用".toList = ['使', '用'] := rfl
    rw [this]
    simp
  rw [e, matchFallback_skip_pre pre _ hpre, matchFallback]
  have hp : List.isPrefixOf "使用".toList ('使' :: '用' :: (g ++ "代替".toList ++ post)) = true := by
    rw [List.isPrefixOf_iff_prefix]
    exact ⟨_, rfl⟩
  rw [if_pos hp]
  have hd : ('使' :: '用' :: (g ++ "代替".toList ++ post)).drop 2 = g ++ "代替".toList ++ post := rfl
  rw [hd, lazyUntil_name_post g post hc hl]

/-- C27 (as amended). An error message is treated as a model-fallback notice
only if it contains `Claude模型不可用` or `using gpt-` and also contains `使用`
followed by a non-empty name (without line terminator and without `代替`)
followed by `代替`, and the model is then that name; it is so treated whenever,
in addition, that `使用` is the first one of the message.  A line whose content
starts with `ERROR:` is fatal exactly when its message is not so treated, as is
the English notice `using gpt-4o instead`. -/
theorem fallback_classification (parse : Str → Option JsVal) (st : ChatState) (m g : Str) :
    (fallbackOf m = some g →
        (includes m "Claude模型不可用".toList = true ∨ includes m "using gpt-".toList = true) ∧
          g ≠ [] ∧ includes m ("使用".toList ++ g ++ "代替".toList) = true ∧
          (∀ c ∈ g, isLineTerminator c = false) ∧ includes g "代替".toList = false) ∧
      (∀ pre post, m = pre ++ "使用".toList ++ g ++ "代替".toList ++ post →
        includes pre "使用".toList = false → g ≠ [] → includes g "代替".toList = false →
        (∀ c ∈ g, isLineTerminator c = false) →
        (includes m "Claude模型不可用".toList = true ∨ includes m "using gpt-".toList = true) →
        fallbackOf m = some g) ∧
      (∀ line, startsWith (trim (stripData line)) "ERROR:".toList = true →
        trim ((trim (stripData line)).drop 6) = m →
        ((processLine parse st line).2 = .ret ↔ fallbackOf m = none)) ∧
      fallbackOf "using gpt-4o instead".toList = none := by
  refine ⟨fallbackOf_spec m g, ?_, ?_, by decide⟩
  · intro pre post hm hpre hne hc hl hcond
    have hmatch : matchFallback m = some g := by
      rw [hm]
      exact matchFallback_first pre g post hpre hc hl
    have hcond2 : (includes m "Claude模型不可用".toList || includes m "using gpt-".toList) =
        true := by
      rcases hcond with h | h
      · rw [h, Bool.true_or]
      · rw [h, Bool.or_true]
    unfold fallbackOf
    rw [if_pos hcond2, hmatch]
    cases g with
    | nil => exact absurd rfl hne
    | cons c cs => rfl
  · intro line he hmsg
    rw [processLine_error parse st line he, hmsg]
    cases fallbackOf m with
    | none => simp
    | some x => simp

/-- C27, an instance: the notice for `gpt-4o`. -/
theorem fallback_classification_witness :
    fallbackOf "Claude模型不可用，使用gpt-4o代替".toList = some "gpt-4o".toList ∧
      includes "Claude模型不可用，使用gpt-4o代替".toList
        ("使用".toList ++ "gpt-4o".toList ++ "代替".toList) = true :=
  ⟨by decide,
    ((fallback_classification parseNothing (initState []) "Claude模型不可用，使用gpt-4o代替".toList
      "gpt-4o".toList).1 (by decide)).2.2.1⟩

/-- C27, the claim as written fails: the message `Claude模型不可用，使用代替使用gpt-4o代替`
contains `Claude模型不可用` and contains `使用`, the non-empty name `gpt-4o` and
`代替` in a row, but the pattern matches at the first `使用`, with an empty name,
and the message is fatal. -/
theorem fallback_first_match_empty :
    includes "Claude模型不可用，使用代替使用gpt-4o代替".toList "Claude模型不可用".toList = true ∧
      includes "Claude模型不可用，使用代替使用gpt-4o代替".toList
        ("使用".toList ++ "gpt-4o".toList ++ "代替".toList) = true ∧
      fallbackOf "Claude模型不可用，使用代替使用gpt-4o代替".toList = none ∧
      (processLine parseNothing (initState [])
        "data: ERROR: Claude模型不可用，使用代替使用gpt-4o代替".toList).2 = .ret := by
  decide

end ChatPage
